import Mathlib

/-!
# go-bittorrent: bitfield, peer-wire message codec, handshake and peer session

A shallow embedding of `bitfield/bitfield.go`, `message/message.go`,
`handshake/handshake.go` and `client/client.go`.

Conventions of the embedding:

* a Go `byte` is a `Fin 256`; a `[]byte` is a `List` of them (all slices that the
  embedded functions write through come from `make` or are whole caller buffers,
  so capacity and length coincide);
* Go's `int` is the 64-bit one (amd64, arm64).  It is embedded as `Int`: the
  arithmetic the code does on `int` values (`/ 8`, `% 8`, `7 - offset`, lengths)
  cannot overflow 64 bits, while each conversion to `uint32` and each `uint32`
  addition is written out with an explicit reduction modulo `2^32`.  The one
  function whose checks depend on the width of `int`, `ParsePiece`, is embedded a
  second time as a build with a 32-bit `int` runs it (`ParsePieceInt32`);
* a run-time panic (index or slice bounds out of range, negative shift count)
  is the value `none` of an outer `Option`;
* an `io.Reader` is a finite in-memory byte stream, a `List` of the bytes not
  yet consumed; a reading function returns the stream that is left;
* a `net.Conn` is a record of the bytes still to come from the peer, the calls of
  `Write` made, the errors the transport will answer them with, the deadline last
  set and whether `Close` was called.  Time itself is not part of the embedding.
-/

set_option autoImplicit false

/-! ## Go primitives used by the embedded code -/

namespace Go

/-- A Go `byte` (`uint8`). -/
abbrev Byte := Fin 256

/-- The conversion `byte(v)` of an unsigned value: the low eight bits. -/
def toByte (v : Nat) : Byte := ⟨v % 256, Nat.mod_lt v (by decide)⟩

/-- The conversion `uint32(v)` of an `int`: the value modulo `2^32`. -/
def toUint32 (v : Int) : Nat := (v % 4294967296).toNat

/-- The allocation `make([]byte, n)`: `n` zero bytes. -/
def make (n : Nat) : List Byte := List.replicate n 0

/-- The slice expression `s[lo:hi]`, read-only use; panics unless `lo ≤ hi ≤ len(s)`. -/
def slice (s : List Byte) (lo hi : Nat) : Option (List Byte) :=
  if lo ≤ hi ∧ hi ≤ s.length then some ((s.take hi).drop lo) else none

/-- The slice expression `s[lo:]`, read-only use; panics unless `lo ≤ len(s)`. -/
def sliceFrom (s : List Byte) (lo : Nat) : Option (List Byte) :=
  if lo ≤ s.length then some (s.drop lo) else none

/-- The bytes of `s` with those from position `off` on replaced by `src`
(used only where `off + len(src) ≤ len(s)`). -/
def overwrite (s : List Byte) (off : Nat) (src : List Byte) : List Byte :=
  s.take off ++ src ++ s.drop (off + src.length)

/-- The assignment `s[i] = v`; panics unless `i < len(s)`. -/
def setIndex (s : List Byte) (i : Nat) (v : Byte) : Option (List Byte) :=
  if i < s.length then some (s.set i v) else none

/-- The call `copy(dst[lo:], src)`: panics unless `lo ≤ len(dst)`, otherwise copies
`min(len(dst) - lo, len(src))` bytes; gives `dst` afterwards and the count. -/
def copyFrom (dst : List Byte) (lo : Nat) (src : List Byte) : Option (List Byte × Nat) :=
  if lo ≤ dst.length then
    let n := min (dst.length - lo) src.length
    some (overwrite dst lo (src.take n), n)
  else none

/-- An `int` value of a build whose `int` has 32 bits: the value wrapped to
`[-2^31, 2^31)`. -/
def wrapInt32 (v : Int) : Int :=
  if v % 4294967296 < 2147483648 then v % 4294967296 else v % 4294967296 - 4294967296

/-- The conversion `int(v)` of a `uint32` on a build whose `int` has 32 bits: values from
`2^31` on become negative. -/
def toInt32 (v : Nat) : Int := wrapInt32 (v : Int)

/-- The call `copy(dst[lo:], src)` with an `int` bound `lo`: panics on a negative `lo`,
and otherwise as `copyFrom`. -/
def copyFromInt (dst : List Byte) (lo : Int) (src : List Byte) : Option (List Byte × Nat) :=
  if lo < 0 then none else copyFrom dst lo.toNat src

/-- The four bytes that `binary.BigEndian.PutUint32` stores for the `uint32` value `v`:
`byte(v >> 24)`, `byte(v >> 16)`, `byte(v >> 8)`, `byte(v)`. -/
def bigEndian32 (v : Nat) : List Byte :=
  [toByte (v / 16777216), toByte (v / 65536), toByte (v / 256), toByte v]

/-- The call `binary.BigEndian.PutUint32(s[lo:hi], v)`: panics when the slice expression
does, or when the slice is shorter than four bytes (`_ = b[3]`); gives `s` afterwards. -/
def PutUint32 (s : List Byte) (lo hi : Nat) (v : Nat) : Option (List Byte) :=
  if lo ≤ hi ∧ hi ≤ s.length then
    if 3 < hi - lo then some (overwrite s lo (bigEndian32 v)) else none
  else none

/-- The call `binary.BigEndian.Uint32(b)`: panics when `b` is shorter than four bytes,
otherwise the big-endian value of its first four bytes. -/
def Uint32 (b : List Byte) : Option Nat :=
  match b with
  | b0 :: b1 :: b2 :: b3 :: _ =>
    some (b0.val * 16777216 + b1.val * 65536 + b2.val * 256 + b3.val)
  | _ => none

/-- The shift `b >> k` of a byte by an `int` count; panics on a negative count. -/
def shr (b : Byte) (k : Int) : Option Byte :=
  if k < 0 then none else some (toByte (b.val >>> k.toNat))

/-- The shift `b << k` of a byte by an `int` count, truncated to eight bits;
panics on a negative count. -/
def shl (b : Byte) (k : Int) : Option Byte :=
  if k < 0 then none else some (toByte (b.val <<< k.toNat))

/-- The two errors `io.ReadFull` gives on an exhausted in-memory stream. -/
inductive IOError where
  | EOF
  | ErrUnexpectedEOF
  deriving DecidableEq, Repr

/-- The call `io.ReadFull(r, buf)` with `len(buf) = n` on the stream `r`: the `n` bytes read
and the rest of the stream, or `EOF` when no byte was there, `ErrUnexpectedEOF` when some
but fewer than `n` were; a failed call has consumed what there was. -/
def ReadFull (r : List Byte) (n : Nat) : Except IOError (List Byte) × List Byte :=
  if n ≤ r.length then (.ok (r.take n), r.drop n)
  else if r.length = 0 then (.error .EOF, [])
  else (.error .ErrUnexpectedEOF, [])

end Go

/-! ## Package `bitfield` -/

namespace bitfield

/-- The Go type `Bitfield []byte`. -/
abbrev Bitfield := List Go.Byte

/-- The method `Bitfield.HasPiece`; `/` and `%` of Go truncate toward zero. -/
def HasPiece (bf : Bitfield) (index : Int) : Option Bool :=
  let byteIndex := index.tdiv 8
  let offset := index.tmod 8
  if byteIndex < 0 ∨ byteIndex ≥ (bf.length : Int) then
    some false
  else do
    let b ← bf[byteIndex.toNat]?
    let s ← Go.shr b (7 - offset)
    some ((s &&& 1) != 0)

/-- The method `Bitfield.SetPiece`; gives the bitfield afterwards.  In
`bf[byteIndex] |= 1 << (7 - offset)` the constant `1` has the type `byte` of the assignment,
so the shift is done on eight bits. -/
def SetPiece (bf : Bitfield) (index : Int) : Option Bitfield :=
  let byteIndex := index.tdiv 8
  let offset := index.tmod 8
  if byteIndex < 0 ∨ byteIndex ≥ (bf.length : Int) then
    some bf
  else do
    let b ← bf[byteIndex.toNat]?
    let bit ← Go.shl 1 (7 - offset)
    Go.setIndex bf byteIndex.toNat (b ||| bit)

end bitfield

/-! ## Package `message` -/

namespace message

/-- The Go type `messageID uint8`. -/
abbrev messageID := Go.Byte

def MsgChoke : messageID := 0
def MsgUnchoke : messageID := 1
def MsgInterested : messageID := 2
def MsgNotInterested : messageID := 3
def MsgHave : messageID := 4
def MsgBitfield : messageID := 5
def MsgRequest : messageID := 6
def MsgPiece : messageID := 7
def MsgCancel : messageID := 8

/-- The Go struct `Message`; a `*Message` that may be nil (keep-alive) is an
`Option Message`. -/
structure Message where
  ID : messageID
  Payload : List Go.Byte
  deriving DecidableEq, Repr

/-- The errors built with `fmt.Errorf` in `ParsePiece` and `ParseHave`, one constructor
for each format string, carrying the formatted arguments. -/
inductive ParseError where
  /-- Format "Expected PIECE (ID %d), got ID %d" -/
  | expectedPiece (got : messageID)
  /-- Format "Payload too short. %d < 8" -/
  | payloadTooShort (len : Nat)
  /-- Format "Expected index %d, got %d" -/
  | expectedIndex (index parsedIndex : Int)
  /-- Format "Begin offset too high. %d >= %d" -/
  | beginTooHigh (start : Int) (len : Nat)
  /-- Format "Data too long [%d] for offset %d with length %d" -/
  | dataTooLong (dataLen : Nat) (start : Int) (len : Nat)
  /-- Format "Expected HAVE (ID %d), got ID %d" -/
  | expectedHave (got : messageID)
  /-- Format "Expected payload length 4, got length %d" -/
  | badPayloadLength (len : Nat)
  deriving DecidableEq, Repr

/-- The function `FormatRequest`. -/
def FormatRequest (index start length : Int) : Option Message := do
  let payload := Go.make 12
  let payload ← Go.PutUint32 payload 0 4 (Go.toUint32 index)
  let payload ← Go.PutUint32 payload 4 8 (Go.toUint32 start)
  let payload ← Go.PutUint32 payload 8 12 (Go.toUint32 length)
  some ⟨MsgRequest, payload⟩

/-- The function `FormatHave`. -/
def FormatHave (index : Int) : Option Message := do
  let payload := Go.make 4
  let payload ← Go.PutUint32 payload 0 payload.length (Go.toUint32 index)
  some ⟨MsgHave, payload⟩

/-- What a call of `ParsePiece` leaves: the two results and the destination buffer. -/
structure PieceResult where
  n : Nat
  err : Option ParseError
  buf : List Go.Byte
  deriving DecidableEq, Repr

/-- The function `ParsePiece` (the message pointer is not nil). -/
def ParsePiece (index : Int) (buf : List Go.Byte) (msg : Message) : Option PieceResult :=
  if msg.ID ≠ MsgPiece then
    some ⟨0, some (.expectedPiece msg.ID), buf⟩
  else if msg.Payload.length < 8 then
    some ⟨0, some (.payloadTooShort msg.Payload.length), buf⟩
  else do
    let parsedIndex ← (Go.slice msg.Payload 0 4).bind Go.Uint32
    if (parsedIndex : Int) ≠ index then
      some ⟨0, some (.expectedIndex index parsedIndex), buf⟩
    else do
      let start ← (Go.slice msg.Payload 4 8).bind Go.Uint32
      if start ≥ buf.length then
        some ⟨0, some (.beginTooHigh start buf.length), buf⟩
      else do
        let data ← Go.sliceFrom msg.Payload 8
        if start + data.length > buf.length then
          some ⟨0, some (.dataTooLong data.length start buf.length), buf⟩
        else do
          let (buf1, _) ← Go.copyFrom buf start data
          some ⟨data.length, none, buf1⟩

/-- The function `ParsePiece` as a build with a 32-bit `int` (386, arm) runs it: the two
conversions `int(binary.BigEndian.Uint32(..))` and the sum `begin + len(data)` wrap to
`[-2^31, 2^31)`, and `buf[begin:]` panics on a negative `begin`. -/
def ParsePieceInt32 (index : Int) (buf : List Go.Byte) (msg : Message) : Option PieceResult :=
  if msg.ID ≠ MsgPiece then
    some ⟨0, some (.expectedPiece msg.ID), buf⟩
  else if msg.Payload.length < 8 then
    some ⟨0, some (.payloadTooShort msg.Payload.length), buf⟩
  else do
    let parsedIndex := Go.toInt32 (← (Go.slice msg.Payload 0 4).bind Go.Uint32)
    if parsedIndex ≠ index then
      some ⟨0, some (.expectedIndex index parsedIndex), buf⟩
    else do
      let start := Go.toInt32 (← (Go.slice msg.Payload 4 8).bind Go.Uint32)
      if start ≥ (buf.length : Int) then
        some ⟨0, some (.beginTooHigh start buf.length), buf⟩
      else do
        let data ← Go.sliceFrom msg.Payload 8
        if Go.wrapInt32 (start + (data.length : Int)) > (buf.length : Int) then
          some ⟨0, some (.dataTooLong data.length start buf.length), buf⟩
        else do
          let (buf1, _) ← Go.copyFromInt buf start data
          some ⟨data.length, none, buf1⟩

/-- The function `ParseHave` (the message pointer is not nil). -/
def ParseHave (msg : Message) : Option (Nat × Option ParseError) :=
  if msg.ID ≠ MsgHave then
    some (0, some (.expectedHave msg.ID))
  else if msg.Payload.length ≠ 4 then
    some (0, some (.badPayloadLength msg.Payload.length))
  else do
    let index ← Go.Uint32 msg.Payload
    some (index, none)

/-- The method `(*Message).Serialize`; `none` as argument is the nil receiver. -/
def Message.Serialize : Option Message → Option (List Go.Byte)
  | none => some (Go.make 4)
  | some m => do
    let length := Go.toUint32 ((m.Payload.length : Int) + 1)
    let buf := Go.make ((4 + length) % 4294967296)
    let buf ← Go.PutUint32 buf 0 4 length
    let buf ← Go.setIndex buf 4 m.ID
    let (buf, _) ← Go.copyFrom buf 5 m.Payload
    some buf

/-- What a call of `Read` leaves: the two results (a nil `msg` with a nil `err` is the
keep-alive) and the stream that is left. -/
structure ReadResult where
  msg : Option Message
  err : Option Go.IOError
  rest : List Go.Byte
  deriving DecidableEq, Repr

/-- The function `Read` on a finite stream. -/
def Read (r : List Go.Byte) : Option ReadResult :=
  match Go.ReadFull r 4 with
  | (.error e, r1) => some ⟨none, some e, r1⟩
  | (.ok lengthBuf, r1) => do
    let length ← Go.Uint32 lengthBuf
    if length = 0 then
      some ⟨none, none, r1⟩
    else
      match Go.ReadFull r1 length with
      | (.error e, r2) => some ⟨none, some e, r2⟩
      | (.ok messageBuf, r2) => do
        let id ← messageBuf[0]?
        let payload ← Go.sliceFrom messageBuf 1
        some ⟨some ⟨id, payload⟩, none, r2⟩

end message

/-! ## Package `handshake` -/

namespace Go

/-- A Go array `[20]byte`. -/
abbrev Bytes20 := { l : List Byte // l.length = 20 }

/-- The zero value of `[20]byte` (a declaration `var a [20]byte`). -/
def zero20 : Bytes20 := ⟨List.replicate 20 0, List.length_replicate 20 0⟩

/-- The call `copy(dst[:], src)` on an array `dst`: never panics, copies
`min(20, len(src))` bytes; gives `dst` afterwards and the count. -/
def copyInto20 (dst : Bytes20) (src : List Byte) : Bytes20 × Nat :=
  (⟨src.take (min 20 src.length) ++ dst.val.drop (min 20 src.length), by
      have h := dst.property
      simp only [List.length_append, List.length_take, List.length_drop, h]
      omega⟩,
    min 20 src.length)

end Go

namespace handshake

/-- The Go struct `Handshake`; the string `Pstr` is its sequence of bytes. -/
structure Handshake where
  Pstr : List Go.Byte
  InfoHash : Go.Bytes20
  PeerID : Go.Bytes20
  deriving DecidableEq

/-- The bytes of the string literal "BitTorrent protocol". -/
def protocolString : List Go.Byte :=
  "BitTorrent protocol".toList.map (fun c => Go.toByte c.toNat)

/-- The function `New` of package `handshake`. -/
def New (infoHash peerID : Go.Bytes20) : Handshake :=
  { Pstr := protocolString, InfoHash := infoHash, PeerID := peerID }

/-- The method `(*Handshake).Serialize` (the receiver is not nil). -/
def Handshake.Serialize (h : Handshake) : Option (List Go.Byte) := do
  let buf := Go.make (h.Pstr.length + 49)
  let buf ← Go.setIndex buf 0 (Go.toByte h.Pstr.length)
  let current := 1
  let (buf, n) ← Go.copyFrom buf current h.Pstr
  let current := current + n
  let (buf, n) ← Go.copyFrom buf current (Go.make 8)
  let current := current + n
  let (buf, n) ← Go.copyFrom buf current h.InfoHash.val
  let current := current + n
  let (buf, _) ← Go.copyFrom buf current h.PeerID.val
  some buf

/-- The errors `Read` of package `handshake` returns: one of `io.ReadFull`, or the one built
with `fmt.Errorf("pstrlen cannot be 0")`. -/
inductive Error where
  | io (e : Go.IOError)
  | pstrlenZero
  deriving DecidableEq, Repr

/-- What a call of `handshake.Read` leaves: the two results and the stream that is left. -/
structure ReadResult where
  h : Option Handshake
  err : Option Error
  rest : List Go.Byte
  deriving DecidableEq

/-- The function `Read` of package `handshake` on a finite stream. -/
def Read (r : List Go.Byte) : Option ReadResult :=
  match Go.ReadFull r 1 with
  | (.error e, r1) => some ⟨none, some (.io e), r1⟩
  | (.ok lengthBuf, r1) => do
    let b ← lengthBuf[0]?
    let pstrlen := b.val
    if pstrlen = 0 then
      some ⟨none, some .pstrlenZero, r1⟩
    else
      match Go.ReadFull r1 (48 + pstrlen) with
      | (.error e, r2) => some ⟨none, some (.io e), r2⟩
      | (.ok handshakeBuf, r2) => do
        let src ← Go.slice handshakeBuf (pstrlen + 8) (pstrlen + 8 + 20)
        let (infoHash, _) := Go.copyInto20 Go.zero20 src
        let src ← Go.sliceFrom handshakeBuf (pstrlen + 8 + 20)
        let (peerID, _) := Go.copyInto20 Go.zero20 src
        let pstr ← Go.slice handshakeBuf 0 pstrlen
        some ⟨some ⟨pstr, infoHash, peerID⟩, none, r2⟩

end handshake

/-! ## Package `client` -/

namespace peers

/-- Modelled from the spec: package `peers` is not among the sources.  The type `Peer` is
the remote peer address (host and port) that the session keeps and dials. -/
structure Peer where
  address : String
  deriving DecidableEq, Repr

end peers

namespace client

/-- An error of the transport (`net.DialTimeout`, `Conn.Write`), which the code only
passes on. -/
structure NetError where
  code : Nat
  deriving DecidableEq, Repr

/-- The state of a `net.Conn`, a reliable ordered byte stream in each direction:
`incoming` holds the bytes the peer sends before it closes its side, not yet read;
`writes` the arguments of the calls of `Write` so far; `writeErrs` the errors the coming
calls of `Write` return, in order (nil once the list is used up); `deadline` the seconds of
the last `SetDeadline(time.Now().Add(..))`, or `none` after `SetDeadline(time.Time{})`;
`closed` whether `Close` was called. -/
structure Conn where
  incoming : List Go.Byte
  writes : List (List Go.Byte)
  writeErrs : List (Option NetError)
  deadline : Option Nat
  closed : Bool
  deriving DecidableEq, Repr

/-- The method `Conn.Write(b)`: the error it returns and the connection afterwards. -/
def Conn.Write (c : Conn) (b : List Go.Byte) : Option NetError × Conn :=
  (c.writeErrs.head?.join, { c with writes := c.writes ++ [b], writeErrs := c.writeErrs.tail })

/-- The method `Conn.SetDeadline`. -/
def Conn.SetDeadline (c : Conn) (d : Option Nat) : Conn := { c with deadline := d }

/-- The method `Conn.Close`. -/
def Conn.Close (c : Conn) : Conn := { c with closed := true }

/-- The errors the functions of package `client` return: those passed on from the
transport, from `handshake.Read` and from `message.Read`, and those built with
`fmt.Errorf`. -/
inductive Error where
  | net (e : NetError)
  | handshake (e : handshake.Error)
  | message (e : Go.IOError)
  /-- Format "Expected infohash %x, but got %x", with `res.InfoHash` and `infohash`. -/
  | infohash (resInfoHash infohash : Go.Bytes20)
  /-- Format "Expected bitfield but got %s", with the nil message. -/
  | bitfieldKeepAlive
  /-- Format "Expected bitfield but got ID %d". -/
  | bitfieldID (id : message.messageID)
  deriving DecidableEq

/-- The Go struct `Client`. -/
structure Client where
  Conn : Conn
  Choked : Bool
  Bitfield : bitfield.Bitfield
  peer : peers.Peer
  infoHash : Go.Bytes20
  peerID : Go.Bytes20
  deriving DecidableEq

/-- What a call of `completeHandshake` leaves: the two results and the connection. -/
structure HandshakeResult where
  res : Option handshake.Handshake
  err : Option Error
  conn : Conn
  deriving DecidableEq

/-- The function `completeHandshake`; the deferred `SetDeadline(time.Time{})` runs on every
return. -/
def completeHandshake (conn : Conn) (infohash peerID : Go.Bytes20) : Option HandshakeResult := do
  let conn := conn.SetDeadline (some 3)
  let req := handshake.New infohash peerID
  let bytes ← req.Serialize
  let (err, conn) := conn.Write bytes
  match err with
  | some e => some ⟨none, some (.net e), conn.SetDeadline none⟩
  | none =>
    let r ← handshake.Read conn.incoming
    let conn := { conn with incoming := r.rest }
    match r.err, r.h with
    | some e, _ => some ⟨none, some (.handshake e), conn.SetDeadline none⟩
    | none, none => none
    | none, some res =>
      if res.InfoHash.val ≠ infohash.val then
        some ⟨none, some (.infohash res.InfoHash infohash), conn.SetDeadline none⟩
      else
        some ⟨some res, none, conn.SetDeadline none⟩

/-- What a call of `recvBitfield` leaves: the two results (a nil bitfield is the empty one)
and the connection. -/
structure BitfieldResult where
  bf : bitfield.Bitfield
  err : Option Error
  conn : Conn
  deriving DecidableEq

/-- The function `recvBitfield`. -/
def recvBitfield (conn : Conn) : Option BitfieldResult := do
  let conn := conn.SetDeadline (some 5)
  let r ← message.Read conn.incoming
  let conn := { conn with incoming := r.rest }
  match r.err, r.msg with
  | some e, _ => some ⟨[], some (.message e), conn.SetDeadline none⟩
  | none, none => some ⟨[], some .bitfieldKeepAlive, conn.SetDeadline none⟩
  | none, some msg =>
    if msg.ID ≠ message.MsgBitfield then
      some ⟨[], some (.bitfieldID msg.ID), conn.SetDeadline none⟩
    else
      some ⟨msg.Payload, none, conn.SetDeadline none⟩

/-- What a call of `New` leaves: the two results and the connection that was dialled, if
any, in its last state. -/
structure NewResult where
  client : Option Client
  err : Option Error
  conn : Option Conn
  deriving DecidableEq

/-- The function `New` of package `client`; `dial` is what
`net.DialTimeout("tcp", peer.String(), 3*time.Second)` gives for each peer. -/
def New (dial : peers.Peer → Except NetError Conn) (peer : peers.Peer)
    (peerID infoHash : Go.Bytes20) : Option NewResult :=
  match dial peer with
  | .error e => some ⟨none, some (.net e), none⟩
  | .ok conn => do
    let hs ← completeHandshake conn infoHash peerID
    match hs.err with
    | some e => some ⟨none, some e, some hs.conn.Close⟩
    | none =>
      let rb ← recvBitfield hs.conn
      match rb.err with
      | some e => some ⟨none, some e, some rb.conn⟩
      | none =>
        some ⟨some { Conn := rb.conn, Choked := true, Bitfield := rb.bf, peer := peer,
                     infoHash := infoHash, peerID := peerID },
              none, some rb.conn⟩

/-- What a call of a method of `*Client` leaves: the method's results and the client. -/
structure CallResult (α : Type) where
  ret : α
  client : Client

/-- The method `(*Client).Read` on the client's connection. -/
def Client.Read (c : Client) :
    Option (CallResult (Option message.Message × Option Go.IOError)) := do
  let r ← message.Read c.Conn.incoming
  some ⟨(r.msg, r.err), { c with Conn := { c.Conn with incoming := r.rest } }⟩

/-- The method `(*Client).SendRequest`. -/
def Client.SendRequest (c : Client) (index start length : Int) :
    Option (CallResult (Option NetError)) := do
  let req ← message.FormatRequest index start length
  let bytes ← message.Message.Serialize (some req)
  let (err, conn) := c.Conn.Write bytes
  some ⟨err, { c with Conn := conn }⟩

/-- The method `(*Client).SendInterested`. -/
def Client.SendInterested (c : Client) : Option (CallResult (Option NetError)) := do
  let msg : message.Message := { ID := message.MsgInterested, Payload := [] }
  let bytes ← message.Message.Serialize (some msg)
  let (err, conn) := c.Conn.Write bytes
  some ⟨err, { c with Conn := conn }⟩

/-- The method `(*Client).SendUnchoke`. -/
def Client.SendUnchoke (c : Client) : Option (CallResult (Option NetError)) := do
  let msg : message.Message := { ID := message.MsgUnchoke, Payload := [] }
  let bytes ← message.Message.Serialize (some msg)
  let (err, conn) := c.Conn.Write bytes
  some ⟨err, { c with Conn := conn }⟩

/-- The method `(*Client).SendHave`. -/
def Client.SendHave (c : Client) (index : Int) : Option (CallResult (Option NetError)) := do
  let msg ← message.FormatHave index
  let bytes ← message.Message.Serialize (some msg)
  let (err, conn) := c.Conn.Write bytes
  some ⟨err, { c with Conn := conn }⟩

end client

/-! ## Evaluation on small inputs -/

example : bitfield.HasPiece [0x80, 0x01] 0 = some true := by decide
example : bitfield.HasPiece [0x80, 0x01] 15 = some true := by decide
example : bitfield.HasPiece [0xff] (-1) = some false := by decide
example : bitfield.SetPiece [0, 0] 9 = some [0, 0x40] := by decide
example : bitfield.SetPiece [0, 0] (-3) = some [0, 0] := by decide
example : message.Message.Serialize (some ⟨7, [1, 2]⟩) = some [0, 0, 0, 3, 7, 1, 2] := by decide
example : message.Read [0, 0, 0, 3, 7, 1, 2, 9] = some ⟨some ⟨7, [1, 2]⟩, none, [9]⟩ := by decide
example : message.Read [0, 0, 0, 3, 7, 1] = some ⟨none, some .ErrUnexpectedEOF, []⟩ := by decide
example : message.ParsePiece 5 (Go.make 10) ⟨7, [0, 0, 0, 5, 0, 0, 0, 2, 0xAA, 0xBB]⟩
    = some ⟨2, none, [0, 0, 0xAA, 0xBB, 0, 0, 0, 0, 0, 0]⟩ := by decide
example : message.ParsePieceInt32 5 (Go.make 10) ⟨7, [0, 0, 0, 5, 0, 0, 0, 2, 0xAA, 0xBB]⟩
    = some ⟨2, none, [0, 0, 0xAA, 0xBB, 0, 0, 0, 0, 0, 0]⟩ := by decide
example : message.ParsePieceInt32 5 (Go.make 10) ⟨7, [0, 0, 0, 5, 0, 0, 0, 10, 0xAA, 0xBB]⟩
    = some ⟨0, some (.beginTooHigh 10 10), Go.make 10⟩ := by decide
example : message.ParsePieceInt32 5 (Go.make 10) ⟨7, [0, 0, 0, 5, 255, 255, 255, 255, 0xAA]⟩
    = none := by decide
example : message.ParseHave ⟨4, [0, 0, 0, 7]⟩ = some (7, none) := by decide
example : message.FormatHave (-1) = some ⟨4, [255, 255, 255, 255]⟩ := by decide
example : message.FormatRequest 1 2 3 = some ⟨6, [0, 0, 0, 1, 0, 0, 0, 2, 0, 0, 0, 3]⟩ := by decide
example : handshake.protocolString
    = [66, 105, 116, 84, 111, 114, 114, 101, 110, 116, 32, 112, 114, 111, 116, 111, 99, 111, 108] := by
  decide
example : (handshake.New Go.zero20 Go.zero20).Serialize
    = some (19 :: handshake.protocolString ++ Go.make 48) := by decide
example : ((handshake.New Go.zero20 Go.zero20).Serialize).bind handshake.Read
    = some ⟨some (handshake.New Go.zero20 Go.zero20), none, []⟩ := by decide

/-! ## The message codec: auxiliary facts -/

namespace message

theorem toUint32_natCast (n : Nat) (h : n < 4294967296) : Go.toUint32 (n : Int) = n := by
  unfold Go.toUint32
  omega

theorem Uint32_bigEndian32 (v : Nat) (h : v < 4294967296) (rest : List Go.Byte) :
    Go.Uint32 (Go.bigEndian32 v ++ rest) = some v := by
  simp only [Go.bigEndian32, Go.Uint32, Go.toByte, List.cons_append, List.nil_append, Option.some.injEq]
  omega

theorem Serialize_eq (m : Message) (h : m.Payload.length + 5 < 4294967296) :
    Message.Serialize (some m) = some (Go.bigEndian32 (m.Payload.length + 1) ++ m.ID :: m.Payload) := by
  have h1 : Go.toUint32 ((m.Payload.length : Int) + 1) = m.Payload.length + 1 := by
    have := toUint32_natCast (m.Payload.length + 1) (by omega)
    simpa using this
  have h2 : (4 + (m.Payload.length + 1)) % 4294967296 = m.Payload.length + 5 := by omega
  simp only [Message.Serialize, h1, h2]
  have h3 : Go.make (m.Payload.length + 5) = 0 :: 0 :: 0 :: 0 :: 0 :: Go.make m.Payload.length := by
    simp [Go.make, List.replicate_succ]
  rw [h3]
  simp [Go.PutUint32, Go.overwrite, Go.bigEndian32, Go.setIndex, Go.copyFrom, Go.make]
  omega

theorem ReadFull_ok (r : List Go.Byte) (n : Nat) (h : n ≤ r.length) :
    Go.ReadFull r n = (.ok (r.take n), r.drop n) := by
  simp [Go.ReadFull, h]

theorem ReadFull_short (r : List Go.Byte) (n : Nat) (h : r.length < n) :
    ∃ e, Go.ReadFull r n = (.error e, []) := by
  unfold Go.ReadFull
  rw [if_neg (by omega)]
  split
  · exact ⟨_, rfl⟩
  · exact ⟨_, rfl⟩

theorem Read_short_header (r : List Go.Byte) (h : r.length < 4) :
    ∃ e, Read r = some ⟨none, some e, []⟩ := by
  obtain ⟨e, he⟩ := ReadFull_short r 4 h
  exact ⟨e, by simp [Read, he]⟩

theorem Read_header (b0 b1 b2 b3 : Go.Byte) (body : List Go.Byte) :
    Read (b0 :: b1 :: b2 :: b3 :: body) =
      (let length := b0.val * 16777216 + b1.val * 65536 + b2.val * 256 + b3.val
       if length = 0 then some ⟨none, none, body⟩
       else match Go.ReadFull body length with
         | (.error e, r2) => some ⟨none, some e, r2⟩
         | (.ok messageBuf, r2) => do
           let id ← messageBuf[0]?
           let payload ← Go.sliceFrom messageBuf 1
           some ⟨some ⟨id, payload⟩, none, r2⟩) := by
  simp [Read, Go.ReadFull, Go.Uint32]

theorem Read_keepAlive (b0 b1 b2 b3 : Go.Byte) (body : List Go.Byte)
    (h : b0.val * 16777216 + b1.val * 65536 + b2.val * 256 + b3.val = 0) :
    Read (b0 :: b1 :: b2 :: b3 :: body) = some ⟨none, none, body⟩ := by
  rw [Read_header]
  simp [h]

theorem Read_short_body (b0 b1 b2 b3 : Go.Byte) (body : List Go.Byte)
    (h : body.length < b0.val * 16777216 + b1.val * 65536 + b2.val * 256 + b3.val) :
    ∃ e, Read (b0 :: b1 :: b2 :: b3 :: body) = some ⟨none, some e, []⟩ := by
  obtain ⟨e, he⟩ := ReadFull_short body _ h
  refine ⟨e, ?_⟩
  rw [Read_header]
  simp only [he]
  rw [if_neg (by omega)]

theorem Read_body (b0 b1 b2 b3 id : Go.Byte) (tail : List Go.Byte)
    (h0 : b0.val * 16777216 + b1.val * 65536 + b2.val * 256 + b3.val ≠ 0)
    (h : b0.val * 16777216 + b1.val * 65536 + b2.val * 256 + b3.val ≤ tail.length + 1) :
    Read (b0 :: b1 :: b2 :: b3 :: id :: tail) =
      some ⟨some ⟨id, tail.take (b0.val * 16777216 + b1.val * 65536 + b2.val * 256 + b3.val - 1)⟩,
        none, tail.drop (b0.val * 16777216 + b1.val * 65536 + b2.val * 256 + b3.val - 1)⟩ := by
  rw [Read_header]
  generalize b0.val * 16777216 + b1.val * 65536 + b2.val * 256 + b3.val = L at h0 h
  obtain ⟨k, rfl⟩ : ∃ k, L = k + 1 := ⟨L - 1, by omega⟩
  have hk : k ≤ tail.length := by omega
  simp [Go.ReadFull, Go.sliceFrom, hk]

theorem bigEndian32_value (v : Nat) (h : v < 4294967296) :
    (Go.toByte (v / 16777216)).val * 16777216 + (Go.toByte (v / 65536)).val * 65536
      + (Go.toByte (v / 256)).val * 256 + (Go.toByte v).val = v := by
  simp only [Go.toByte]
  omega

theorem Read_Serialize_append (m : Message) (h : m.Payload.length + 5 < 4294967296)
    (rest : List Go.Byte) :
    Read (Go.bigEndian32 (m.Payload.length + 1) ++ m.ID :: m.Payload ++ rest)
      = some ⟨some m, none, rest⟩ := by
  have hv := bigEndian32_value (m.Payload.length + 1) (by omega)
  simp only [Go.bigEndian32, List.cons_append, List.nil_append]
  rw [Read_body _ _ _ _ _ _ (by rw [hv]; omega) (by rw [hv]; simp)]
  rw [hv]
  simp

theorem Serialize_panics (m : Message) (h1 : 4294967291 ≤ m.Payload.length)
    (h2 : m.Payload.length < 4294967296) : Message.Serialize (some m) = none := by
  obtain ⟨k, hk⟩ : ∃ k, m.Payload.length + 5 = 4294967296 + k := ⟨m.Payload.length - 4294967291, by omega⟩
  have h3 : (4 + Go.toUint32 ((m.Payload.length : Int) + 1)) % 4294967296 = k := by
    unfold Go.toUint32
    omega
  have h4 : k ≤ 4 := by omega
  simp only [Message.Serialize, h3]
  interval_cases k
  · simp [Go.PutUint32, Go.make]
  · simp [Go.PutUint32, Go.make]
  · simp [Go.PutUint32, Go.make]
  · simp [Go.PutUint32, Go.make]
  · simp [Go.PutUint32, Go.make, Go.overwrite, Go.setIndex, Go.bigEndian32]

theorem Serialize_truncates (m : Message) (h : m.Payload.length = 4294967296) :
    Message.Serialize (some m) = some [0, 0, 0, 1, m.ID] := by
  have h1 : Go.toUint32 ((m.Payload.length : Int) + 1) = 1 := by
    unfold Go.toUint32
    omega
  simp only [Message.Serialize, h1]
  simp [Go.PutUint32, Go.make, Go.overwrite, Go.setIndex, Go.bigEndian32, Go.copyFrom, Go.toByte]

theorem toUint32_lt (v : Int) : Go.toUint32 v < 4294967296 := by
  unfold Go.toUint32
  omega

theorem Serialize_header (m : Message) (frame : List Go.Byte)
    (h : Message.Serialize (some m) = some frame) :
    ∃ (L : Nat) (tail : List Go.Byte), L ≠ 0 ∧ L < 4294967296 ∧ frame = Go.bigEndian32 L ++ tail := by
  have hL := toUint32_lt ((m.Payload.length : Int) + 1)
  simp only [Message.Serialize] at h
  generalize Go.toUint32 ((m.Payload.length : Int) + 1) = L at h hL
  by_cases hwrap : 4 + L < 4294967296
  · rw [Nat.mod_eq_of_lt hwrap] at h
    cases L with
    | zero => simp [Go.PutUint32, Go.make, Go.overwrite, Go.setIndex, Go.bigEndian32] at h
    | succ k =>
      have h3 : Go.make (4 + (k + 1)) = 0 :: 0 :: 0 :: 0 :: 0 :: Go.make k := by
        rw [show 4 + (k + 1) = k + 5 by omega]
        simp [Go.make, List.replicate_succ]
      rw [h3] at h
      simp [Go.PutUint32, Go.overwrite, Go.bigEndian32, Go.setIndex, Go.copyFrom, Go.make] at h
      subst h
      exact ⟨k + 1, _, by omega, hL, rfl⟩
  · obtain ⟨k, hk⟩ : ∃ k, 4 + L = 4294967296 + k := ⟨4 + L - 4294967296, by omega⟩
    have hk4 : k < 4 := by omega
    rw [hk, Nat.add_mod_left, Nat.mod_eq_of_lt (by omega)] at h
    interval_cases k <;> simp [Go.PutUint32, Go.make] at h

theorem Read_nonzero_header (L : Nat) (h0 : L ≠ 0) (hL : L < 4294967296) (tail : List Go.Byte)
    (res : ReadResult) (h : Read (Go.bigEndian32 L ++ tail) = some res) :
    ¬ (res.msg = none ∧ res.err = none) := by
  have hv := bigEndian32_value L hL
  simp only [Go.bigEndian32, List.cons_append, List.nil_append] at h
  rw [Read_header] at h
  simp only [hv, if_neg h0] at h
  split at h
  · simp only [Option.some.injEq] at h
    subst h
    simp
  · simp only [Option.bind_eq_bind, Option.bind_eq_some, Option.some.injEq] at h
    obtain ⟨id, -, payload, -, rfl⟩ := h
    simp

/-! ## The message codec: framing -/

/-- C1 (as amended): for every kind byte and every payload of fewer than `2^32 - 5` bytes,
`Serialize` returns a frame, and `Read` of that frame succeeds with a message of the same
ID and the same payload bytes, the whole frame consumed. -/
theorem read_serialize_roundtrip (m : Message) (h : m.Payload.length + 5 < 4294967296) :
    ∃ frame, Message.Serialize (some m) = some frame ∧
      Read frame = some ⟨some m, none, []⟩ := by
  refine ⟨_, Serialize_eq m h, ?_⟩
  have := Read_Serialize_append m h []
  simpa using this

/-- Witness of C1: the piece-kind message with payload `[1, 2]`. -/
theorem read_serialize_roundtrip_witness :
    (⟨7, [1, 2]⟩ : Message).Payload.length + 5 < 4294967296 ∧
    ∃ frame, Message.Serialize (some ⟨7, [1, 2]⟩) = some frame ∧
      Read frame = some ⟨some ⟨7, [1, 2]⟩, none, []⟩ :=
  ⟨by decide, read_serialize_roundtrip ⟨7, [1, 2]⟩ (by decide)⟩

/-- C1 as stated fails: a payload of `2^32` bytes is serialized to the five bytes
`[0, 0, 0, 1, 7]` (the length is reduced modulo `2^32` and `copy` finds no room), and `Read`
of them succeeds with an empty payload, not the original one; and with a payload of
`2^32 - 5` bytes, the shortest one that goes wrong, `Serialize` panics and there is no frame
to read. -/
theorem read_serialize_roundtrip_fails :
    (∃ frame, Message.Serialize (some ⟨7, List.replicate 4294967296 0⟩) = some frame ∧
      Read frame = some ⟨some ⟨7, []⟩, none, []⟩ ∧
      (⟨7, []⟩ : Message) ≠ ⟨7, List.replicate 4294967296 0⟩) ∧
    Message.Serialize (some ⟨7, List.replicate 4294967291 0⟩) = none := by
  refine ⟨⟨_, Serialize_truncates _ (List.length_replicate _ _), by decide, ?_⟩,
    Serialize_panics _ ?_ ?_⟩
  · intro hEq
    have hlen := congrArg (fun x : Message => x.Payload.length) hEq
    simp only [List.length_nil, List.length_replicate] at hlen
    omega
  · simp only [List.length_replicate]; omega
  · simp only [List.length_replicate]; omega

/-- C2 (as amended): for every kind byte and every payload of fewer than `2^32 - 5` bytes,
`Serialize` returns, without panic, exactly `5 + len(payload)` bytes: four bytes whose
big-endian value is `len(payload) + 1`, the kind byte, the payload unchanged; the output is
a function of kind and payload. -/
theorem serialize_layout (m : Message) (h : m.Payload.length + 5 < 4294967296) :
    ∃ b0 b1 b2 b3 : Go.Byte,
      Message.Serialize (some m) = some (b0 :: b1 :: b2 :: b3 :: m.ID :: m.Payload) ∧
      b0.val * 16777216 + b1.val * 65536 + b2.val * 256 + b3.val = m.Payload.length + 1 ∧
      (b0 :: b1 :: b2 :: b3 :: m.ID :: m.Payload).length = 5 + m.Payload.length := by
  refine ⟨_, _, _, _, Serialize_eq m h, bigEndian32_value _ (by omega), ?_⟩
  simp only [List.length_cons]
  omega

/-- Witness of C2: the bitfield-kind message with payload `[0xF0, 0x0F]`. -/
theorem serialize_layout_witness :
    (⟨5, [0xF0, 0x0F]⟩ : Message).Payload.length + 5 < 4294967296 ∧
    ∃ b0 b1 b2 b3 : Go.Byte,
      Message.Serialize (some ⟨5, [0xF0, 0x0F]⟩) = some (b0 :: b1 :: b2 :: b3 :: 5 :: [0xF0, 0x0F]) ∧
      b0.val * 16777216 + b1.val * 65536 + b2.val * 256 + b3.val = 2 + 1 ∧
      (b0 :: b1 :: b2 :: b3 :: 5 :: ([0xF0, 0x0F] : List Go.Byte)).length = 5 + 2 :=
  ⟨by decide, serialize_layout ⟨5, [0xF0, 0x0F]⟩ (by decide)⟩

/-- C2 as stated fails: with a payload of `2^32 - 5` bytes `4 + length` wraps to `0` and
`buf[0:4]` panics, so `Serialize` does fail; with a payload of `2^32` bytes it returns
five bytes, not `5 + 2^32`, and the length field holds `1`. -/
theorem serialize_layout_fails :
    Message.Serialize (some ⟨7, List.replicate 4294967291 0⟩) = none ∧
    Message.Serialize (some ⟨7, List.replicate 4294967296 0⟩) = some [0, 0, 0, 1, 7] ∧
    ([0, 0, 0, 1, 7] : List Go.Byte).length ≠ 5 + (List.replicate 4294967296 (0 : Go.Byte)).length := by
  refine ⟨Serialize_panics _ ?_ ?_, Serialize_truncates _ (List.length_replicate _ _), ?_⟩
  · simp only [List.length_replicate]; omega
  · simp only [List.length_replicate]; omega
  · simp only [List.length_replicate, List.length_cons, List.length_nil]; omega

/-- C3: on every finite stream `Read` returns without panic; it fails (nil message, an
error) exactly when the stream holds fewer than 4 bytes, or the big-endian length `L` of its
first 4 bytes is non-zero and fewer than `L` bytes follow; otherwise it succeeds, with the
keep-alive (nil, nil) when `L = 0`, and else with the message whose ID is the first body
byte and whose payload is the next `L - 1` bytes. -/
theorem read_outcome (r : List Go.Byte) :
    (∃ res, Read r = some res ∧ (res.err ≠ none → res.msg = none) ∧
      (res.err ≠ none ↔
        (r.length < 4 ∨ ∃ (b0 b1 b2 b3 : Go.Byte) (body : List Go.Byte),
          r = b0 :: b1 :: b2 :: b3 :: body ∧
          b0.val * 16777216 + b1.val * 65536 + b2.val * 256 + b3.val ≠ 0 ∧
          body.length < b0.val * 16777216 + b1.val * 65536 + b2.val * 256 + b3.val))) ∧
    (∀ (b0 b1 b2 b3 : Go.Byte) (body : List Go.Byte) (L : Nat),
      r = b0 :: b1 :: b2 :: b3 :: body →
      L = b0.val * 16777216 + b1.val * 65536 + b2.val * 256 + b3.val →
        (L = 0 → Read r = some ⟨none, none, body⟩) ∧
        (L ≠ 0 → L ≤ body.length → ∃ id tail, body = id :: tail ∧
          Read r = some ⟨some ⟨id, tail.take (L - 1)⟩, none, tail.drop (L - 1)⟩)) := by
  have key : ∀ (b0 b1 b2 b3 : Go.Byte) (body : List Go.Byte) (L : Nat),
      r = b0 :: b1 :: b2 :: b3 :: body →
      L = b0.val * 16777216 + b1.val * 65536 + b2.val * 256 + b3.val →
        (L = 0 → Read r = some ⟨none, none, body⟩) ∧
        (L ≠ 0 → L ≤ body.length → ∃ id tail, body = id :: tail ∧
          Read r = some ⟨some ⟨id, tail.take (L - 1)⟩, none, tail.drop (L - 1)⟩) := by
    intro b0 b1 b2 b3 body L hr hL
    subst hr
    refine ⟨fun h0 => Read_keepAlive _ _ _ _ _ (hL ▸ h0), fun h0 hle => ?_⟩
    cases body with
    | nil => simp only [List.length_nil] at hle; omega
    | cons id tail =>
      refine ⟨id, tail, rfl, ?_⟩
      subst hL
      exact Read_body _ _ _ _ _ _ h0 (by simpa using hle)
  refine ⟨?_, key⟩
  by_cases hlen : r.length < 4
  · obtain ⟨e, he⟩ := Read_short_header r hlen
    exact ⟨_, he, fun _ => rfl, by simp [hlen]⟩
  · obtain ⟨b0, b1, b2, b3, body, rfl⟩ :
        ∃ (b0 b1 b2 b3 : Go.Byte) (body : List Go.Byte), r = b0 :: b1 :: b2 :: b3 :: body := by
      match r, hlen with
      | b0 :: b1 :: b2 :: b3 :: body, _ => exact ⟨b0, b1, b2, b3, body, rfl⟩
      | [], h | [_], h | [_, _], h | [_, _, _], h => exact absurd (by simp) h
    have hk := key b0 b1 b2 b3 body _ rfl rfl
    by_cases h0 : b0.val * 16777216 + b1.val * 65536 + b2.val * 256 + b3.val = 0
    · refine ⟨_, hk.1 h0, fun _ => rfl, ?_⟩
      constructor
      · intro h; exact absurd rfl h
      · rintro (h | ⟨c0, c1, c2, c3, body', heq, hne, -⟩)
        · exact absurd h hlen
        · simp only [List.cons.injEq] at heq
          obtain ⟨rfl, rfl, rfl, rfl, rfl⟩ := heq
          exact absurd h0 hne
    · by_cases hb : body.length < b0.val * 16777216 + b1.val * 65536 + b2.val * 256 + b3.val
      · obtain ⟨e, he⟩ := Read_short_body b0 b1 b2 b3 body hb
        refine ⟨_, he, fun _ => rfl, ?_⟩
        constructor
        · intro _; exact Or.inr ⟨b0, b1, b2, b3, body, rfl, h0, hb⟩
        · intro _; simp
      · obtain ⟨id, tail, -, hread⟩ := hk.2 h0 (by omega)
        refine ⟨_, hread, fun h => absurd rfl h, ?_⟩
        constructor
        · intro h; exact absurd rfl h
        · rintro (h | ⟨c0, c1, c2, c3, body', heq, -, hlt⟩)
          · exact absurd h hlen
          · simp only [List.cons.injEq] at heq
            obtain ⟨rfl, rfl, rfl, rfl, rfl⟩ := heq
            exact absurd hlt hb

/-- Witness of C3: a complete frame followed by one more byte, and a truncated frame. -/
theorem read_outcome_witness :
    (∃ id tail, ([7, 1, 2, 9] : List Go.Byte) = id :: tail ∧
      Read [0, 0, 0, 3, 7, 1, 2, 9] = some ⟨some ⟨id, tail.take (3 - 1)⟩, none, tail.drop (3 - 1)⟩) ∧
    (∃ res, Read [0, 0, 0, 3, 7, 1] = some res ∧ (res.err ≠ none → res.msg = none) ∧
      (res.err ≠ none ↔
        (([0, 0, 0, 3, 7, 1] : List Go.Byte).length < 4 ∨
          ∃ (b0 b1 b2 b3 : Go.Byte) (body : List Go.Byte),
          [0, 0, 0, 3, 7, 1] = b0 :: b1 :: b2 :: b3 :: body ∧
          b0.val * 16777216 + b1.val * 65536 + b2.val * 256 + b3.val ≠ 0 ∧
          body.length < b0.val * 16777216 + b1.val * 65536 + b2.val * 256 + b3.val))) :=
  ⟨((read_outcome [0, 0, 0, 3, 7, 1, 2, 9]).2 0 0 0 3 [7, 1, 2, 9] 3 rfl (by decide)).2
      (by decide) (by decide),
    (read_outcome [0, 0, 0, 3, 7, 1]).1⟩

/-- C4: `Serialize` of the nil message is exactly `[0, 0, 0, 0]`; `Read` of any stream that
starts with four zero bytes gives the keep-alive (nil message, nil error) and leaves all
bytes after those four; and no frame that `Serialize` returns for a non-nil message is read
back as the keep-alive. -/
theorem keepAlive_frame :
    Message.Serialize none = some [0, 0, 0, 0] ∧
    (∀ rest : List Go.Byte, Read (0 :: 0 :: 0 :: 0 :: rest) = some ⟨none, none, rest⟩) ∧
    (∀ (m : Message) (frame rest : List Go.Byte), Message.Serialize (some m) = some frame →
      ∀ res, Read (frame ++ rest) = some res → ¬ (res.msg = none ∧ res.err = none)) := by
  refine ⟨by decide, fun rest => Read_keepAlive 0 0 0 0 rest (by decide), ?_⟩
  intro m frame rest hser res hread
  obtain ⟨L, tail, hL0, hL, rfl⟩ := Serialize_header m frame hser
  rw [List.append_assoc] at hread
  exact Read_nonzero_header L hL0 hL (tail ++ rest) res hread

/-- Witness of C4: the choke message, whose frame is read back as a message. -/
theorem keepAlive_frame_witness :
    Message.Serialize (some ⟨MsgChoke, []⟩) = some [0, 0, 0, 1, 0] ∧
    Read ([0, 0, 0, 1, 0] ++ []) = some ⟨some ⟨MsgChoke, []⟩, none, []⟩ ∧
    ¬ ((⟨some ⟨MsgChoke, []⟩, none, []⟩ : ReadResult).msg = none ∧
       (⟨some ⟨MsgChoke, []⟩, none, []⟩ : ReadResult).err = none) :=
  ⟨by decide, by decide,
    keepAlive_frame.2.2 ⟨MsgChoke, []⟩ [0, 0, 0, 1, 0] [] (by decide)
      ⟨some ⟨MsgChoke, []⟩, none, []⟩ (by decide)⟩

/-! ## The message codec: parsing of piece and have messages -/

theorem ParsePiece_piece (index : Int) (buf : List Go.Byte) (p0 p1 p2 p3 p4 p5 p6 p7 : Go.Byte)
    (data : List Go.Byte) (parsedIndex start : Nat)
    (hi : parsedIndex = p0.val * 16777216 + p1.val * 65536 + p2.val * 256 + p3.val)
    (hs : start = p4.val * 16777216 + p5.val * 65536 + p6.val * 256 + p7.val) :
    ParsePiece index buf ⟨MsgPiece, p0 :: p1 :: p2 :: p3 :: p4 :: p5 :: p6 :: p7 :: data⟩ =
      some (if (parsedIndex : Int) ≠ index then ⟨0, some (.expectedIndex index parsedIndex), buf⟩
        else if start ≥ buf.length then ⟨0, some (.beginTooHigh start buf.length), buf⟩
        else if start + data.length > buf.length then
          ⟨0, some (.dataTooLong data.length start buf.length), buf⟩
        else ⟨data.length, none, buf.take start ++ data ++ buf.drop (start + data.length)⟩) := by
  have h8 : ¬ (p0 :: p1 :: p2 :: p3 :: p4 :: p5 :: p6 :: p7 :: data).length < 8 := by
    simp only [List.length_cons]
    omega
  have hslice1 : (Go.slice (p0 :: p1 :: p2 :: p3 :: p4 :: p5 :: p6 :: p7 :: data) 0 4).bind Go.Uint32
      = some parsedIndex := by
    simp [Go.slice, Go.Uint32, hi]
  have hslice2 : (Go.slice (p0 :: p1 :: p2 :: p3 :: p4 :: p5 :: p6 :: p7 :: data) 4 8).bind Go.Uint32
      = some start := by
    simp [Go.slice, Go.Uint32, hs]
  have hdata : Go.sliceFrom (p0 :: p1 :: p2 :: p3 :: p4 :: p5 :: p6 :: p7 :: data) 8 = some data := by
    simp [Go.sliceFrom]
  simp only [ParsePiece, ne_eq, not_true_eq_false, if_false, h8, hslice1, hslice2, hdata,
    Option.bind_eq_bind, Option.some_bind]
  by_cases h1 : (parsedIndex : Int) = index
  · simp only [h1, not_true_eq_false, if_false]
    by_cases h2 : start ≥ buf.length
    · simp only [h2, if_true]
    · simp only [h2, if_false]
      by_cases h3 : start + data.length > buf.length
      · simp only [h3, if_true]
      · simp only [h3, if_false]
        have hmin : min (buf.length - start) data.length = data.length := by omega
        have hle : start ≤ buf.length := by omega
        simp [Go.copyFrom, Go.overwrite, hmin, hle]
  · simp only [h1, not_false_eq_true, if_true]


theorem ParsePiece_notPiece (index : Int) (buf : List Go.Byte) (msg : Message)
    (h : msg.ID ≠ MsgPiece) :
    ParsePiece index buf msg = some ⟨0, some (.expectedPiece msg.ID), buf⟩ := by
  simp [ParsePiece, h]

theorem ParsePiece_short (index : Int) (buf : List Go.Byte) (msg : Message)
    (h : msg.ID = MsgPiece) (hlen : msg.Payload.length < 8) :
    ParsePiece index buf msg = some ⟨0, some (.payloadTooShort msg.Payload.length), buf⟩ := by
  simp [ParsePiece, h, hlen]

theorem payload_header (p : List Go.Byte) (h : ¬ p.length < 8) :
    ∃ (p0 p1 p2 p3 p4 p5 p6 p7 : Go.Byte) (data : List Go.Byte),
      p = p0 :: p1 :: p2 :: p3 :: p4 :: p5 :: p6 :: p7 :: data := by
  match p, h with
  | p0 :: p1 :: p2 :: p3 :: p4 :: p5 :: p6 :: p7 :: data, _ =>
    exact ⟨p0, p1, p2, p3, p4, p5, p6, p7, data, rfl⟩
  | [], h | [_], h | [_, _], h | [_, _, _], h | [_, _, _, _], h | [_, _, _, _, _], h
  | [_, _, _, _, _, _], h | [_, _, _, _, _, _, _], h => exact absurd (by simp) h


/-- What C5 states, on a build whose `int` has 64 bits: `ParsePiece` returns without panic on
every expected index, buffer and message, and
its error is the one of the first failing check in the order kind, payload length, index,
begin offset, data length; it succeeds exactly when all five checks pass; on every failure
the count is 0 and the destination buffer is as before. -/
theorem parsePiece_checks (index : Int) (buf : List Go.Byte) (msg : Message) :
    ∃ res, ParsePiece index buf msg = some res ∧
      (res.err ≠ none → res.n = 0 ∧ res.buf = buf) ∧
      (msg.ID ≠ MsgPiece → res.err = some (.expectedPiece msg.ID)) ∧
      (msg.ID = MsgPiece → msg.Payload.length < 8 →
        res.err = some (.payloadTooShort msg.Payload.length)) ∧
      (∀ (p0 p1 p2 p3 p4 p5 p6 p7 : Go.Byte) (data : List Go.Byte) (parsedIndex start : Nat),
        msg.ID = MsgPiece →
        msg.Payload = p0 :: p1 :: p2 :: p3 :: p4 :: p5 :: p6 :: p7 :: data →
        parsedIndex = p0.val * 16777216 + p1.val * 65536 + p2.val * 256 + p3.val →
        start = p4.val * 16777216 + p5.val * 65536 + p6.val * 256 + p7.val →
          ((parsedIndex : Int) ≠ index →
            res.err = some (.expectedIndex index parsedIndex)) ∧
          ((parsedIndex : Int) = index → buf.length ≤ start →
            res.err = some (.beginTooHigh start buf.length)) ∧
          ((parsedIndex : Int) = index → start < buf.length → buf.length < start + data.length →
            res.err = some (.dataTooLong data.length start buf.length)) ∧
          ((parsedIndex : Int) = index → start < buf.length → start + data.length ≤ buf.length →
            res.err = none)) ∧
      (res.err = none ↔
        (msg.ID = MsgPiece ∧
          ∃ (p0 p1 p2 p3 p4 p5 p6 p7 : Go.Byte) (data : List Go.Byte),
            msg.Payload = p0 :: p1 :: p2 :: p3 :: p4 :: p5 :: p6 :: p7 :: data ∧
            ((p0.val * 16777216 + p1.val * 65536 + p2.val * 256 + p3.val : Nat) : Int) = index ∧
            p4.val * 16777216 + p5.val * 65536 + p6.val * 256 + p7.val < buf.length ∧
            p4.val * 16777216 + p5.val * 65536 + p6.val * 256 + p7.val + data.length
              ≤ buf.length)) := by
  obtain ⟨id, payload⟩ := msg
  by_cases hid : id = MsgPiece
  swap
  · refine ⟨_, ParsePiece_notPiece index buf _ hid, ?_⟩
    simp [hid]
  subst hid
  by_cases hlen : payload.length < 8
  · refine ⟨_, ParsePiece_short index buf _ rfl hlen, ?_⟩
    simp only [ne_eq, not_true_eq_false, false_implies, true_implies, true_and, and_true,
      not_false_eq_true, hlen, reduceCtorEq, false_iff, not_exists, not_and]
    constructor
    · intro p0 p1 p2 p3 p4 p5 p6 p7 data parsedIndex start hp
      rw [hp] at hlen
      simp only [List.length_cons] at hlen
      omega
    · intro p0 p1 p2 p3 p4 p5 p6 p7 data hp
      rw [hp] at hlen
      simp only [List.length_cons] at hlen
      omega
  obtain ⟨p0, p1, p2, p3, p4, p5, p6, p7, data, rfl⟩ := payload_header payload hlen
  refine ⟨_, ParsePiece_piece index buf p0 p1 p2 p3 p4 p5 p6 p7 data _ _ rfl rfl, ?_⟩
  generalize hpi : p0.val * 16777216 + p1.val * 65536 + p2.val * 256 + p3.val = parsedIndex
  generalize hst : p4.val * 16777216 + p5.val * 65536 + p6.val * 256 + p7.val = start
  have inj : ∀ (q0 q1 q2 q3 q4 q5 q6 q7 : Go.Byte) (d : List Go.Byte),
      p0 :: p1 :: p2 :: p3 :: p4 :: p5 :: p6 :: p7 :: data
        = q0 :: q1 :: q2 :: q3 :: q4 :: q5 :: q6 :: q7 :: d →
      q0.val * 16777216 + q1.val * 65536 + q2.val * 256 + q3.val = parsedIndex ∧
      q4.val * 16777216 + q5.val * 65536 + q6.val * 256 + q7.val = start ∧ d = data := by
    intro q0 q1 q2 q3 q4 q5 q6 q7 d h
    simp only [List.cons.injEq] at h
    obtain ⟨rfl, rfl, rfl, rfl, rfl, rfl, rfl, rfl, rfl⟩ := h
    exact ⟨hpi, hst, rfl⟩
  refine ⟨?_, fun h => absurd rfl h, fun _ h => absurd h hlen, ?_, ?_⟩
  · split_ifs <;> simp
  · intro q0 q1 q2 q3 q4 q5 q6 q7 d pi st _ hp hpi2 hst2
    obtain ⟨e1, e2, rfl⟩ := inj _ _ _ _ _ _ _ _ _ hp
    rw [e1] at hpi2
    rw [e2] at hst2
    subst hpi2 hst2
    refine ⟨fun h => ?_, fun h1 h2 => ?_, fun h1 h2 h3 => ?_, fun h1 h2 h3 => ?_⟩
    · simp [h]
    · simp [h1, h2]
    · simp [h1, h2, h3, Nat.not_le.mpr h2]
    · simp [h1, Nat.not_le.mpr h2, Nat.not_lt.mpr h3]
  · constructor
    · intro h
      refine ⟨rfl, p0, p1, p2, p3, p4, p5, p6, p7, data, rfl, ?_⟩
      rw [hpi, hst]
      by_cases h1 : (parsedIndex : Int) = index
      · by_cases h2 : start < buf.length
        · by_cases h3 : start + data.length ≤ buf.length
          · exact ⟨h1, h2, h3⟩
          · simp [h1, Nat.not_le.mpr h2, Nat.lt_of_not_le h3] at h
        · simp [h1, Nat.le_of_not_lt h2] at h
      · simp [h1] at h
    · rintro ⟨-, q0, q1, q2, q3, q4, q5, q6, q7, d, hp, h1, h2, h3⟩
      obtain ⟨e1, e2, rfl⟩ := inj _ _ _ _ _ _ _ _ _ hp
      rw [e1] at h1
      rw [e2] at h2 h3
      simp [h1, Nat.not_le.mpr h2, Nat.not_lt.mpr h3]


/-- C7: `ParseHave` returns without panic; it fails with the wrong-kind error when the kind
is not have, whatever the payload; with the bad-length error when the kind is have and the
payload is not exactly 4 bytes long; and otherwise succeeds with the big-endian value of the
4 payload bytes (payload `[0, 0, 0, 7]` gives 7). -/
theorem parseHave_outcome (msg : Message) :
    (∃ res, ParseHave msg = some res) ∧
    (msg.ID ≠ MsgHave → ParseHave msg = some (0, some (.expectedHave msg.ID))) ∧
    (msg.ID = MsgHave → msg.Payload.length ≠ 4 →
      ParseHave msg = some (0, some (.badPayloadLength msg.Payload.length))) ∧
    (∀ p0 p1 p2 p3 : Go.Byte, msg.ID = MsgHave → msg.Payload = [p0, p1, p2, p3] →
      ParseHave msg
        = some (p0.val * 16777216 + p1.val * 65536 + p2.val * 256 + p3.val, none)) ∧
    ParseHave ⟨MsgHave, [0, 0, 0, 7]⟩ = some (7, none) := by
  have hA : msg.ID ≠ MsgHave → ParseHave msg = some (0, some (.expectedHave msg.ID)) := by
    intro h
    simp [ParseHave, h]
  have hB : msg.ID = MsgHave → msg.Payload.length ≠ 4 →
      ParseHave msg = some (0, some (.badPayloadLength msg.Payload.length)) := by
    intro h hl
    simp [ParseHave, h, hl]
  have hC : ∀ p0 p1 p2 p3 : Go.Byte, msg.ID = MsgHave → msg.Payload = [p0, p1, p2, p3] →
      ParseHave msg
        = some (p0.val * 16777216 + p1.val * 65536 + p2.val * 256 + p3.val, none) := by
    intro p0 p1 p2 p3 h hp
    simp [ParseHave, h, hp, Go.Uint32]
  refine ⟨?_, hA, hB, hC, by decide⟩
  by_cases h : msg.ID = MsgHave
  · by_cases hl : msg.Payload.length = 4
    · match hp : msg.Payload, hl with
      | [p0, p1, p2, p3], _ => exact ⟨_, hC p0 p1 p2 p3 h hp⟩
    · exact ⟨_, hB h hl⟩
  · exact ⟨_, hA h⟩

/-- Witness of C7: a have message with payload `[0, 0, 1, 2]`, and one of 3 bytes. -/
theorem parseHave_outcome_witness :
    ParseHave ⟨MsgHave, [0, 0, 1, 2]⟩ = some (0 * 16777216 + 0 * 65536 + 1 * 256 + 2, none) ∧
    ParseHave ⟨MsgHave, [0, 0, 1]⟩ = some (0, some (.badPayloadLength 3)) ∧
    ParseHave ⟨MsgPiece, [0, 0, 1, 2]⟩ = some (0, some (.expectedHave MsgPiece)) :=
  ⟨(parseHave_outcome ⟨MsgHave, [0, 0, 1, 2]⟩).2.2.2.1 0 0 1 2 rfl rfl,
    (parseHave_outcome ⟨MsgHave, [0, 0, 1]⟩).2.2.1 rfl (by decide),
    (parseHave_outcome ⟨MsgPiece, [0, 0, 1, 2]⟩).2.1 (by decide)⟩

/-- The three failing examples of the specification, with a 64-bit `int` (expected index 6;
begin 10 and begin 9 with two data bytes against a 10-byte buffer). -/
theorem parsePiece_checks_witness :
    (∃ res, ParsePiece 6 (Go.make 10) ⟨MsgPiece, [0, 0, 0, 5, 0, 0, 0, 2, 0xAA, 0xBB]⟩ = some res ∧
      res.err = some (.expectedIndex 6 5)) ∧
    (∃ res, ParsePiece 5 (Go.make 10) ⟨MsgPiece, [0, 0, 0, 5, 0, 0, 0, 10, 0xAA, 0xBB]⟩ = some res ∧
      res.err = some (.beginTooHigh 10 10)) ∧
    (∃ res, ParsePiece 5 (Go.make 10) ⟨MsgPiece, [0, 0, 0, 5, 0, 0, 0, 9, 0xAA, 0xBB]⟩ = some res ∧
      res.err = some (.dataTooLong 2 9 10)) := by
  refine ⟨?_, ?_, ?_⟩
  · obtain ⟨res, h, -, -, -, h4, -⟩ :=
      parsePiece_checks 6 (Go.make 10) ⟨MsgPiece, [0, 0, 0, 5, 0, 0, 0, 2, 0xAA, 0xBB]⟩
    exact ⟨res, h, (h4 0 0 0 5 0 0 0 2 [0xAA, 0xBB] 5 2 rfl rfl (by decide) (by decide)).1
      (by decide)⟩
  · obtain ⟨res, h, -, -, -, h4, -⟩ :=
      parsePiece_checks 5 (Go.make 10) ⟨MsgPiece, [0, 0, 0, 5, 0, 0, 0, 10, 0xAA, 0xBB]⟩
    exact ⟨res, h, (h4 0 0 0 5 0 0 0 10 [0xAA, 0xBB] 5 10 rfl rfl (by decide) (by decide)).2.1
      (by decide) (by decide)⟩
  · obtain ⟨res, h, -, -, -, h4, -⟩ :=
      parsePiece_checks 5 (Go.make 10) ⟨MsgPiece, [0, 0, 0, 5, 0, 0, 0, 9, 0xAA, 0xBB]⟩
    exact ⟨res, h, (h4 0 0 0 5 0 0 0 9 [0xAA, 0xBB] 5 9 rfl rfl (by decide) (by decide)).2.2.1
      (by decide) (by decide) (by decide)⟩


/-- C5, the code at the failing inputs: on a build whose `int` has 32 bits, a piece message
for the expected index whose begin field is `0xFFFFFFFF` or `0x80000000` decodes to a
negative `begin`; the checks `begin >= len(buf)` and `begin + len(data) > len(buf)` both
pass, although the decoded offset is far beyond the 10-byte buffer, and `buf[begin:]`
panics: `ParsePiece` neither returns the offset error nor succeeds.  With a 64-bit `int` the
same two messages get the offset error. -/
theorem parsePiece_int32_negative_begin :
    Go.Uint32 [255, 255, 255, 255] = some 4294967295 ∧ Go.toInt32 4294967295 = -1 ∧
    ParsePieceInt32 5 (Go.make 10) ⟨MsgPiece, [0, 0, 0, 5, 255, 255, 255, 255, 0xAA]⟩ = none ∧
    Go.Uint32 [128, 0, 0, 0] = some 2147483648 ∧ Go.toInt32 2147483648 = -2147483648 ∧
    ParsePieceInt32 5 (Go.make 10) ⟨MsgPiece, [0, 0, 0, 5, 128, 0, 0, 0, 0xAA]⟩ = none ∧
    ParsePiece 5 (Go.make 10) ⟨MsgPiece, [0, 0, 0, 5, 255, 255, 255, 255, 0xAA]⟩
      = some ⟨0, some (.beginTooHigh 4294967295 10), Go.make 10⟩ ∧
    ParsePiece 5 (Go.make 10) ⟨MsgPiece, [0, 0, 0, 5, 128, 0, 0, 0, 0xAA]⟩
      = some ⟨0, some (.beginTooHigh 2147483648 10), Go.make 10⟩ := by
  refine ⟨by decide, by decide, by decide, by decide, by decide, by decide, by decide,
    by decide⟩

end message

/-! ## The bitfield -/

namespace bitfield

theorem byte_or_val (a b : Go.Byte) : (a ||| b).val = a.val ||| b.val := by
  show (a.val ||| b.val) % 256 = a.val ||| b.val
  exact Nat.mod_eq_of_lt (Nat.or_lt_two_pow (n := 8) a.isLt b.isLt)

theorem bit_val (k : Nat) (hk : k < 8) : (Go.toByte (1 <<< k)).val = 2 ^ k := by
  show (1 <<< k) % 256 = 2 ^ k
  rw [Nat.one_shiftLeft]
  interval_cases k <;> rfl

theorem or_bit_testBit (b : Go.Byte) (k k2 : Nat) (hk : k < 8) :
    (b ||| Go.toByte (1 <<< k)).val.testBit k2 = (b.val.testBit k2 || decide (k = k2)) := by
  rw [byte_or_val, Nat.testBit_or, bit_val k hk, Nat.testBit_two_pow]

theorem shr_and_one (b : Go.Byte) (k : Nat) :
    ((Go.toByte (b.val >>> k) &&& 1) != 0) = b.val.testBit k := by
  have h1 : b.val >>> k < 256 := by
    rw [Nat.shiftRight_eq_div_pow]
    exact Nat.lt_of_le_of_lt (Nat.div_le_self _ _) b.isLt
  have h2 : (Go.toByte (b.val >>> k) &&& 1 : Go.Byte).val = (b.val >>> k) % 2 := by
    show ((b.val >>> k) % 256 &&& 1 % 256) % 256 = (b.val >>> k) % 2
    rw [Nat.mod_eq_of_lt h1]
    simp only [Nat.reduceMod, Nat.and_one_is_mod]
    omega
  have h3 : (Go.toByte (b.val >>> k) &&& 1 : Go.Byte) = 0 ↔ (b.val >>> k) % 2 = 0 := by
    rw [Fin.ext_iff, h2]
    rfl
  rw [Nat.testBit, Nat.one_and_eq_mod_two, Bool.eq_iff_iff, bne_iff_ne, bne_iff_ne]
  exact not_congr h3


theorem tdiv_natCast (n : Nat) : (n : Int).tdiv 8 = ((n / 8 : Nat) : Int) := by
  rw [Int.tdiv_eq_ediv (by omega) (by omega)]
  omega

theorem tmod_natCast (n : Nat) : (n : Int).tmod 8 = ((n % 8 : Nat) : Int) := by
  rw [Int.tmod_eq_emod (by omega) (by omega)]
  omega

theorem tdiv_negSucc (n : Nat) : (Int.negSucc n).tdiv 8 = -(((n + 1) / 8 : Nat) : Int) := rfl

theorem tmod_negSucc (n : Nat) : (Int.negSucc n).tmod 8 = -(((n + 1) % 8 : Nat) : Int) := rfl

theorem shift_count (r : Nat) (h : r < 8) : ((7 : Int) - (r : Int)).toNat = 7 - r := by omega

theorem HasPiece_natCast (bf : Bitfield) (n : Nat) :
    HasPiece bf (n : Int) = some (match bf[n / 8]? with
      | some b => b.val.testBit (7 - n % 8)
      | none => false) := by
  have hr : n % 8 < 8 := Nat.mod_lt _ (by decide)
  simp only [HasPiece, tdiv_natCast, tmod_natCast, Int.toNat_ofNat]
  by_cases hlen : n / 8 < bf.length
  · rw [if_neg (by omega), List.getElem?_eq_getElem hlen]
    have hk : ¬ ((7 : Int) - ((n % 8 : Nat) : Int) < 0) := by omega
    simp only [Go.shr, if_neg hk, shift_count _ hr, Option.bind_eq_bind, Option.some_bind,
      shr_and_one]
  · rw [if_pos (by omega), List.getElem?_eq_none (by omega)]

theorem SetPiece_natCast (bf : Bitfield) (n : Nat) :
    SetPiece bf (n : Int) = some (match bf[n / 8]? with
      | some b => bf.set (n / 8) (b ||| Go.toByte (1 <<< (7 - n % 8)))
      | none => bf) := by
  have hr : n % 8 < 8 := Nat.mod_lt _ (by decide)
  simp only [SetPiece, tdiv_natCast, tmod_natCast, Int.toNat_ofNat]
  by_cases hlen : n / 8 < bf.length
  · rw [if_neg (by omega), List.getElem?_eq_getElem hlen]
    have hk : ¬ ((7 : Int) - ((n % 8 : Nat) : Int) < 0) := by omega
    simp only [Go.shl, if_neg hk, shift_count _ hr, Option.bind_eq_bind, Option.some_bind,
      Go.setIndex, if_pos hlen]
    rfl
  · rw [if_pos (by omega), List.getElem?_eq_none (by omega)]

theorem shr_high (b : Go.Byte) (k : Nat) (hk : 8 ≤ k) : Go.toByte (b.val >>> k) = 0 := by
  have h1 : b.val >>> k = 0 := by
    rw [Nat.shiftRight_eq_div_pow]
    apply Nat.div_eq_of_lt
    calc b.val < 2 ^ 8 := b.isLt
      _ ≤ 2 ^ k := Nat.pow_le_pow_right (by decide) hk
  rw [h1]
  rfl

theorem shl_high (k : Nat) (hk : 8 ≤ k) : Go.toByte (1 <<< k) = 0 := by
  apply Fin.ext
  show (1 <<< k) % 256 = 0
  rw [Nat.one_shiftLeft]
  obtain ⟨j, rfl⟩ : ∃ j, k = 8 + j := ⟨k - 8, by omega⟩
  rw [Nat.pow_add]
  omega

theorem byte_or_zero (b : Go.Byte) : b ||| 0 = b := by
  apply Fin.ext
  rw [byte_or_val]
  simp

theorem HasPiece_negSucc (bf : Bitfield) (n : Nat) : HasPiece bf (Int.negSucc n) = some false := by
  simp only [HasPiece, tdiv_negSucc, tmod_negSucc]
  by_cases hq : (n + 1) / 8 = 0
  · have hm : (n + 1) % 8 = n + 1 := by omega
    rw [hq, hm]
    cases bf with
    | nil => simp
    | cons b tl =>
      generalize hkk : (7 : Int) - -((n + 1 : Nat) : Int) = k
      have hk : ¬ k < 0 := by omega
      have hk2 : k.toNat = 8 + n := by omega
      simp [Go.shr, hk, hk2, shr_high b (8 + n) (by omega)]
      decide
  · rw [if_pos (Or.inl (by omega))]

theorem SetPiece_negSucc (bf : Bitfield) (n : Nat) : SetPiece bf (Int.negSucc n) = some bf := by
  simp only [SetPiece, tdiv_negSucc, tmod_negSucc]
  by_cases hq : (n + 1) / 8 = 0
  · have hm : (n + 1) % 8 = n + 1 := by omega
    rw [hq, hm]
    cases bf with
    | nil => simp
    | cons b tl =>
      generalize hkk : (7 : Int) - -((n + 1 : Nat) : Int) = k
      have hk : ¬ k < 0 := by omega
      have hk2 : k.toNat = 8 + n := by omega
      simp [Go.shl, hk, hk2, shl_high (8 + n) (by omega), Go.setIndex, byte_or_zero]
  · rw [if_pos (Or.inl (by omega))]


theorem or_bit_absorb (b : Go.Byte) (k : Nat) (hk : k < 8) (h : b.val.testBit k = true) :
    b ||| Go.toByte (1 <<< k) = b := by
  apply Fin.ext
  rw [byte_or_val, bit_val k hk]
  apply Nat.eq_of_testBit_eq
  intro i
  rw [Nat.testBit_or, Nat.testBit_two_pow]
  by_cases hki : k = i
  · subst hki
    simp [h]
  · simp [hki]

theorem set_getElem_same (bf : Bitfield) (q : Nat) (hq : q < bf.length) : bf.set q bf[q] = bf := by
  apply List.ext_getElem?
  intro i
  by_cases hi : q = i
  · subst hi
    rw [List.getElem?_set_self hq, List.getElem?_eq_getElem hq]
  · rw [List.getElem?_set_ne hi]

/-- C8: for every bitfield and every integer index `HasPiece` returns without panic, and
returns true exactly when `0 ≤ index < 8 * len(bf)` and bit `7 - index % 8` (the most
significant bit first) of byte `index / 8` is set; so it returns false for every index
outside that range, the negative ones included. -/
theorem hasPiece_spec (bf : Bitfield) (index : Int) :
    ∃ r, HasPiece bf index = some r ∧
      (r = true ↔ ∃ n : Nat, index = (n : Int) ∧ n < 8 * bf.length ∧
        ∃ b, bf[n / 8]? = some b ∧ b.val.testBit (7 - n % 8) = true) ∧
      ((index < 0 ∨ (8 * bf.length : Int) ≤ index) → r = false) := by
  cases index with
  | ofNat n =>
    refine ⟨_, HasPiece_natCast bf n, ?_, ?_⟩
    · constructor
      · intro h
        by_cases hlen : n / 8 < bf.length
        · rw [List.getElem?_eq_getElem hlen] at h
          exact ⟨n, rfl, by omega, bf[n / 8], List.getElem?_eq_getElem hlen, h⟩
        · rw [List.getElem?_eq_none (by omega)] at h
          exact absurd h Bool.false_ne_true
      · rintro ⟨m, hm, -, b, hb, hbit⟩
        have hmn : n = m := by
          have : (n : Int) = (m : Int) := hm
          omega
        subst hmn
        rw [hb]
        exact hbit
    · intro h
      have hge : bf.length ≤ n / 8 := by
        rcases h with h | h
        · exact absurd h (by simp)
        · have h2 : (8 * bf.length : Int) ≤ (n : Int) := h
          omega
      rw [List.getElem?_eq_none hge]
  | negSucc n =>
    refine ⟨false, HasPiece_negSucc bf n, ?_, fun _ => rfl⟩
    constructor
    · intro h
      exact absurd h (by decide)
    · rintro ⟨m, hm, -⟩
      exact absurd hm (by simp)

/-- Witness of C8: bit 9 of `[0x00, 0x40]` is set, and index -1 gives false although
byte `-1 / 8 = 0` exists and has all bits set. -/
theorem hasPiece_spec_witness :
    (∃ r, HasPiece [0x00, 0x40] 9 = some r ∧ r = true) ∧
    (∃ r, HasPiece [0xFF] (-1) = some r ∧ r = false) := by
  constructor
  · obtain ⟨r, hr, hiff, -⟩ := hasPiece_spec [0x00, 0x40] 9
    exact ⟨r, hr, hiff.mpr ⟨9, rfl, by decide, 0x40, by decide, by decide⟩⟩
  · obtain ⟨r, hr, -, hout⟩ := hasPiece_spec [0xFF] (-1)
    exact ⟨r, hr, hout (Or.inl (by decide))⟩


theorem HasPiece_set_natCast (bf : Bitfield) (n m : Nat) (hq : n / 8 < bf.length) :
    HasPiece (bf.set (n / 8) (bf[n / 8] ||| Go.toByte (1 <<< (7 - n % 8)))) (m : Int) =
      some (if m = n then true else
        match bf[m / 8]? with
        | some b => b.val.testBit (7 - m % 8)
        | none => false) := by
  have hn : n % 8 < 8 := Nat.mod_lt _ (by decide)
  have hm : m % 8 < 8 := Nat.mod_lt _ (by decide)
  rw [HasPiece_natCast]
  by_cases hqm : m / 8 = n / 8
  · rw [hqm, List.getElem?_set_self hq, List.getElem?_eq_getElem hq]
    simp only [or_bit_testBit _ _ _ (show 7 - n % 8 < 8 by omega)]
    by_cases hmn : m = n
    · subst hmn
      simp
    · have hne : ¬ (7 - n % 8 = 7 - m % 8) := by omega
      simp [hmn, hne]
  · have hmn : m ≠ n := fun h => hqm (by rw [h])
    rw [List.getElem?_set_ne (Ne.symm hqm), if_neg hmn]

/-- C9: for every bitfield and every index with `0 ≤ index < 8 * len(bf)`, `SetPiece`
returns without panic; afterwards `HasPiece(index)` is true, `HasPiece(j)` is as before for
every other integer `j`, and the length is the same; setting a bit that is already set
changes nothing, and so does setting the same bit again. -/
theorem setPiece_sets (bf : Bitfield) (index : Int) (h0 : 0 ≤ index)
    (h1 : index < 8 * (bf.length : Int)) :
    ∃ bf1, SetPiece bf index = some bf1 ∧
      HasPiece bf1 index = some true ∧
      (∀ j : Int, j ≠ index → HasPiece bf1 j = HasPiece bf j) ∧
      bf1.length = bf.length ∧
      (HasPiece bf index = some true → bf1 = bf) ∧
      SetPiece bf1 index = some bf1 := by
  obtain ⟨n, rfl⟩ : ∃ n : Nat, index = (n : Int) := ⟨index.toNat, by omega⟩
  have hq : n / 8 < bf.length := by omega
  have hn : 7 - n % 8 < 8 := by omega
  have hset : SetPiece bf (n : Int)
      = some (bf.set (n / 8) (bf[n / 8] ||| Go.toByte (1 <<< (7 - n % 8)))) := by
    rw [SetPiece_natCast, List.getElem?_eq_getElem hq]
  have hhas : HasPiece (bf.set (n / 8) (bf[n / 8] ||| Go.toByte (1 <<< (7 - n % 8)))) (n : Int)
      = some true := by
    rw [HasPiece_set_natCast bf n n hq, if_pos rfl]
  refine ⟨_, hset, hhas, ?_, List.length_set _ _ _, ?_, ?_⟩
  · intro j hj
    cases j with
    | ofNat m =>
      have hmn : m ≠ n := fun h => hj (by rw [h]; rfl)
      have h2 := HasPiece_set_natCast bf n m hq
      rw [if_neg hmn] at h2
      exact h2.trans (HasPiece_natCast bf m).symm
    | negSucc m => rw [HasPiece_negSucc, HasPiece_negSucc]
  · intro h
    rw [HasPiece_natCast, List.getElem?_eq_getElem hq, Option.some.injEq] at h
    rw [or_bit_absorb _ _ hn h]
    exact set_getElem_same bf _ hq
  · rw [SetPiece_natCast, List.getElem?_set_self hq]
    show some (List.set _ _ _) = _
    rw [List.set_set]
    have hbit : (bf[n / 8] ||| Go.toByte (1 <<< (7 - n % 8))).val.testBit (7 - n % 8) = true := by
      rw [or_bit_testBit _ _ _ hn]
      simp
    simp only [or_bit_absorb _ _ hn hbit]

/-- Witness of C9: setting bit 9 of a two-byte zero bitfield. -/
theorem setPiece_sets_witness :
    (0 : Int) ≤ 9 ∧ (9 : Int) < 8 * (([0, 0] : Bitfield).length : Int) ∧
    ∃ bf1, SetPiece [0, 0] 9 = some bf1 ∧
      HasPiece bf1 9 = some true ∧
      (∀ j : Int, j ≠ 9 → HasPiece bf1 j = HasPiece [0, 0] j) ∧
      bf1.length = ([0, 0] : Bitfield).length ∧
      (HasPiece [0, 0] 9 = some true → bf1 = [0, 0]) ∧
      SetPiece bf1 9 = some bf1 :=
  ⟨by decide, by decide, setPiece_sets [0, 0] 9 (by decide) (by decide)⟩

/-- C10: for every bitfield and every integer index outside `[0, 8 * len(bf))`, negative
ones whose truncated byte index is 0 included, `SetPiece` returns without panic and leaves
the bitfield as it was. -/
theorem setPiece_out_of_range (bf : Bitfield) (index : Int)
    (h : index < 0 ∨ 8 * (bf.length : Int) ≤ index) :
    SetPiece bf index = some bf := by
  cases index with
  | ofNat n =>
    have hge : bf.length ≤ n / 8 := by
      rcases h with h | h
      · exact absurd h (by simp)
      · have h2 : 8 * (bf.length : Int) ≤ (n : Int) := h
        omega
    have h3 := SetPiece_natCast bf n
    rw [List.getElem?_eq_none hge] at h3
    exact h3
  | negSucc n => exact SetPiece_negSucc bf n

/-- Witness of C10: index -1 on `[0x0F]` (byte index 0, shift count 8) and index 8 past
its end. -/
theorem setPiece_out_of_range_witness :
    ((-1 : Int) < 0 ∨ 8 * (([0x0F] : Bitfield).length : Int) ≤ -1) ∧
    SetPiece [0x0F] (-1) = some [0x0F] ∧ SetPiece [0x0F] 8 = some [0x0F] :=
  ⟨Or.inl (by decide), setPiece_out_of_range [0x0F] (-1) (Or.inl (by decide)),
    setPiece_out_of_range [0x0F] 8 (Or.inr (by decide))⟩

end bitfield

/-! ## The handshake -/

namespace handshake

theorem copyFrom_fill (pre src : List Go.Byte) (k t lo : Nat) (ht : t = src.length + k)
    (hlo : lo = pre.length) :
    Go.copyFrom (pre ++ List.replicate t 0) lo src
      = some (pre ++ src ++ List.replicate k 0, src.length) := by
  subst hlo ht
  have hmin : min ((pre ++ List.replicate (src.length + k) (0 : Go.Byte)).length - pre.length)
      src.length = src.length := by
    simp only [List.length_append, List.length_replicate]
    omega
  have hle : pre.length ≤ (pre ++ List.replicate (src.length + k) (0 : Go.Byte)).length := by
    simp only [List.length_append]
    omega
  simp only [Go.copyFrom, if_pos hle, hmin, Go.overwrite, List.take_length,
    List.take_left, Option.some.injEq, Prod.mk.injEq, and_true]
  rw [List.drop_append, List.drop_replicate]
  congr 2
  omega

theorem Handshake_Serialize_eq (h : Handshake) :
    h.Serialize = some (Go.toByte h.Pstr.length :: h.Pstr ++ Go.make 8 ++ h.InfoHash.val
      ++ h.PeerID.val) := by
  have hH := h.InfoHash.property
  have hP := h.PeerID.property
  have h8 : (Go.make 8).length = 8 := by simp [Go.make]
  have h0 : Go.setIndex (Go.make (h.Pstr.length + 49)) 0 (Go.toByte h.Pstr.length)
      = some ([Go.toByte h.Pstr.length] ++ List.replicate (h.Pstr.length + 48) 0) := by
    simp [Go.setIndex, Go.make, List.replicate_succ]
  have h1 := copyFrom_fill [Go.toByte h.Pstr.length] h.Pstr 48 (h.Pstr.length + 48) 1 rfl rfl
  have h2 := copyFrom_fill ([Go.toByte h.Pstr.length] ++ h.Pstr) (Go.make 8) 40 48
    (1 + h.Pstr.length) (by omega) (by simp; omega)
  have h3 := copyFrom_fill ([Go.toByte h.Pstr.length] ++ h.Pstr ++ Go.make 8) h.InfoHash.val 20
    40 (1 + h.Pstr.length + (Go.make 8).length) (by omega) (by simp; omega)
  have h4 := copyFrom_fill ([Go.toByte h.Pstr.length] ++ h.Pstr ++ Go.make 8 ++ h.InfoHash.val)
    h.PeerID.val 0 20 (1 + h.Pstr.length + (Go.make 8).length + h.InfoHash.val.length)
    (by omega) (by simp; omega)
  simp only [Handshake.Serialize, h0, Option.bind_eq_bind, Option.some_bind, h1, h2, h3, h4]
  simp


theorem copyInto20_val (src : List Go.Byte) (h : src.length = 20) :
    (Go.copyInto20 Go.zero20 src).1.val = src := by
  simp [Go.copyInto20, h, Go.zero20]

theorem Handshake_Read_nil : Read [] = some ⟨none, some (.io .EOF), []⟩ := by decide

theorem Handshake_Read_zero (n : Go.Byte) (rest : List Go.Byte) (hn : n.val = 0) :
    Read (n :: rest) = some ⟨none, some .pstrlenZero, rest⟩ := by
  simp [Read, Go.ReadFull, hn]

theorem Handshake_Read_short (n : Go.Byte) (rest : List Go.Byte) (hn : n.val ≠ 0)
    (hlen : rest.length < 48 + n.val) :
    ∃ e, Read (n :: rest) = some ⟨none, some (.io e), []⟩ := by
  have h1 : ¬ (48 + n.val ≤ rest.length) := by omega
  by_cases h0 : rest.length = 0
  · exact ⟨.EOF, by simp [Read, Go.ReadFull, hn, h1, h0]⟩
  · exact ⟨.ErrUnexpectedEOF, by simp [Read, Go.ReadFull, hn, h1, h0]⟩

theorem Handshake_Read_ok (n : Go.Byte) (rest : List Go.Byte) (hn : n.val ≠ 0)
    (hlen : 48 + n.val ≤ rest.length) :
    Read (n :: rest) = some ⟨some ⟨rest.take n.val,
        (Go.copyInto20 Go.zero20 ((rest.drop (n.val + 8)).take 20)).1,
        (Go.copyInto20 Go.zero20 ((rest.drop (n.val + 28)).take 20)).1⟩,
      none, rest.drop (48 + n.val)⟩ := by
  have hb : (rest.take (48 + n.val)).length = 48 + n.val := by
    simp only [List.length_take]
    omega
  have s1 : Go.slice (rest.take (48 + n.val)) (n.val + 8) (n.val + 8 + 20)
      = some ((rest.drop (n.val + 8)).take 20) := by
    have hc : n.val + 8 ≤ n.val + 8 + 20 ∧ n.val + 8 + 20 ≤ (rest.take (48 + n.val)).length := by
      omega
    rw [Go.slice, if_pos hc, List.take_take, List.drop_take]
    congr 2
    omega
  have s2 : Go.sliceFrom (rest.take (48 + n.val)) (n.val + 8 + 20)
      = some ((rest.drop (n.val + 28)).take 20) := by
    have hc : n.val + 8 + 20 ≤ (rest.take (48 + n.val)).length := by omega
    rw [Go.sliceFrom, if_pos hc, List.drop_take]
    congr 2
    omega
  have s3 : Go.slice (rest.take (48 + n.val)) 0 n.val = some (rest.take n.val) := by
    have hc : 0 ≤ n.val ∧ n.val ≤ (rest.take (48 + n.val)).length := by omega
    rw [Go.slice, if_pos hc, List.take_take, List.drop_zero]
    congr 2
    omega
  simp [Read, Go.ReadFull, hn, hlen, s1, s2, s3]


theorem Handshake_Read_frame (n : Go.Byte) (pstr reserved more : List Go.Byte) (H P : Go.Bytes20)
    (hn : n.val ≠ 0) (hp : pstr.length = n.val) (hr : reserved.length = 8) :
    Read (n :: (pstr ++ reserved ++ H.val ++ P.val ++ more))
      = some ⟨some ⟨pstr, H, P⟩, none, more⟩ := by
  have hH := H.property
  have hP := P.property
  have hlen : 48 + n.val ≤ (pstr ++ reserved ++ H.val ++ P.val ++ more).length := by
    simp only [List.length_append]
    omega
  rw [Handshake_Read_ok n _ hn hlen]
  have e1 : (pstr ++ reserved ++ H.val ++ P.val ++ more).take n.val = pstr := by
    simp only [List.append_assoc]
    exact List.take_left' hp
  have e2 : ((pstr ++ reserved ++ H.val ++ P.val ++ more).drop (n.val + 8)).take 20 = H.val := by
    have h1 : (pstr ++ reserved).length = n.val + 8 := by
      simp only [List.length_append]
      omega
    rw [show pstr ++ reserved ++ H.val ++ P.val ++ more
        = (pstr ++ reserved) ++ (H.val ++ (P.val ++ more)) by simp only [List.append_assoc],
      List.drop_left' h1]
    exact List.take_left' hH
  have e3 : ((pstr ++ reserved ++ H.val ++ P.val ++ more).drop (n.val + 28)).take 20 = P.val := by
    have h1 : (pstr ++ reserved ++ H.val).length = n.val + 28 := by
      simp only [List.length_append]
      omega
    rw [show pstr ++ reserved ++ H.val ++ P.val ++ more
        = (pstr ++ reserved ++ H.val) ++ (P.val ++ more) by simp only [List.append_assoc],
      List.drop_left' h1]
    exact List.take_left' hP
  have e4 : (pstr ++ reserved ++ H.val ++ P.val ++ more).drop (48 + n.val) = more := by
    have h1 : (pstr ++ reserved ++ H.val ++ P.val).length = 48 + n.val := by
      simp only [List.length_append]
      omega
    exact List.drop_left' h1
  rw [e1, e2, e3, e4]
  have f1 : (Go.copyInto20 Go.zero20 H.val).1 = H := Subtype.ext (copyInto20_val _ hH)
  have f2 : (Go.copyInto20 Go.zero20 P.val).1 = P := Subtype.ext (copyInto20_val _ hP)
  rw [f1, f2]


theorem toByte_val_of_le (n : Nat) (h : n ≤ 255) : (Go.toByte n).val = n := by
  show n % 256 = n
  omega

theorem protocolString_bytes : protocolString
    = [66, 105, 116, 84, 111, 114, 114, 101, 110, 116, 32, 112, 114, 111, 116, 111, 99, 111, 108] := by
  decide

/-- C11: for every 20-byte `H` and `P`, `New(H, P).Serialize()` is exactly 68 bytes: the byte
19, the 19 bytes of "BitTorrent protocol", 8 zero bytes, the bytes of `H`, the bytes of `P`;
and a handshake whose identity string has `n ≤ 255` bytes is serialized, without panic, to
`n + 49` bytes in that layout, the first byte being `n`. -/
theorem handshake_serialize_layout :
    protocolString
      = [66, 105, 116, 84, 111, 114, 114, 101, 110, 116, 32, 112, 114, 111, 116, 111, 99, 111, 108] ∧
    (∀ H P : Go.Bytes20,
      (New H P).Serialize
        = some (19 :: protocolString ++ [0, 0, 0, 0, 0, 0, 0, 0] ++ H.val ++ P.val) ∧
      (19 :: protocolString ++ [0, 0, 0, 0, 0, 0, 0, 0] ++ H.val ++ P.val).length = 68) ∧
    (∀ h : Handshake, h.Pstr.length ≤ 255 →
      ∃ n : Go.Byte, n.val = h.Pstr.length ∧
        h.Serialize
          = some (n :: h.Pstr ++ [0, 0, 0, 0, 0, 0, 0, 0] ++ h.InfoHash.val ++ h.PeerID.val) ∧
        (n :: h.Pstr ++ [0, 0, 0, 0, 0, 0, 0, 0] ++ h.InfoHash.val ++ h.PeerID.val).length
          = h.Pstr.length + 49) := by
  refine ⟨protocolString_bytes, fun H P => ⟨?_, ?_⟩, fun h hn => ?_⟩
  · rw [Handshake_Serialize_eq]
    rfl
  · have hH := H.property
    have hP := P.property
    simp only [List.cons_append, List.length_cons, List.length_append, hH, hP,
      protocolString_bytes, List.length_nil]
  · refine ⟨Go.toByte h.Pstr.length, toByte_val_of_le _ hn, ?_, ?_⟩
    · rw [Handshake_Serialize_eq]
      rfl
    · have hH := h.InfoHash.property
      have hP := h.PeerID.property
      simp only [List.cons_append, List.length_cons, List.length_append, hH, hP, List.length_nil]

/-- Witness of C11: a handshake with the three-byte identity string `[1, 2, 3]`. -/
theorem handshake_serialize_layout_witness :
    (⟨[1, 2, 3], Go.zero20, Go.zero20⟩ : Handshake).Pstr.length ≤ 255 ∧
    ∃ n : Go.Byte, n.val = (⟨[1, 2, 3], Go.zero20, Go.zero20⟩ : Handshake).Pstr.length ∧
      (⟨[1, 2, 3], Go.zero20, Go.zero20⟩ : Handshake).Serialize
        = some (n :: [1, 2, 3] ++ [0, 0, 0, 0, 0, 0, 0, 0] ++ Go.zero20.val ++ Go.zero20.val) ∧
      (n :: [1, 2, 3] ++ [0, 0, 0, 0, 0, 0, 0, 0] ++ Go.zero20.val ++ Go.zero20.val).length
        = 3 + 49 :=
  ⟨by decide, handshake_serialize_layout.2.2 ⟨[1, 2, 3], Go.zero20, Go.zero20⟩ (by decide)⟩

/-- C12: for every 20-byte `H` and `P`, `Read` of the bytes of `New(H, P).Serialize()`
succeeds with `Pstr` the bytes of "BitTorrent protocol", `InfoHash = H` and `PeerID = P`;
and for every handshake whose identity string has between 1 and 255 bytes, `Read` of its
serialization succeeds with that handshake. -/
theorem handshake_roundtrip :
    (∀ H P : Go.Bytes20, ∃ bytes, (New H P).Serialize = some bytes ∧
      Read bytes = some ⟨some ⟨protocolString, H, P⟩, none, []⟩) ∧
    (∀ h : Handshake, 1 ≤ h.Pstr.length → h.Pstr.length ≤ 255 →
      ∃ bytes, h.Serialize = some bytes ∧ Read bytes = some ⟨some h, none, []⟩) := by
  have key : ∀ h : Handshake, 1 ≤ h.Pstr.length → h.Pstr.length ≤ 255 →
      ∃ bytes, h.Serialize = some bytes ∧ Read bytes = some ⟨some h, none, []⟩ := by
    intro h h1 h255
    refine ⟨_, Handshake_Serialize_eq h, ?_⟩
    have hv := toByte_val_of_le _ h255
    have := Handshake_Read_frame (Go.toByte h.Pstr.length) h.Pstr (Go.make 8) [] h.InfoHash h.PeerID
      (by omega) hv.symm (by simp [Go.make])
    simpa using this
  refine ⟨fun H P => ?_, key⟩
  have hlen : (New H P).Pstr.length = 19 := by
    show protocolString.length = 19
    rw [protocolString_bytes]
    rfl
  exact key (New H P) (by omega) (by omega)

/-- Witness of C12: a handshake with the three-byte identity string `[1, 2, 3]`. -/
theorem handshake_roundtrip_witness :
    1 ≤ (⟨[1, 2, 3], Go.zero20, Go.zero20⟩ : Handshake).Pstr.length ∧
    (⟨[1, 2, 3], Go.zero20, Go.zero20⟩ : Handshake).Pstr.length ≤ 255 ∧
    ∃ bytes, (⟨[1, 2, 3], Go.zero20, Go.zero20⟩ : Handshake).Serialize = some bytes ∧
      Read bytes = some ⟨some ⟨[1, 2, 3], Go.zero20, Go.zero20⟩, none, []⟩ :=
  ⟨by decide, by decide,
    handshake_roundtrip.2 ⟨[1, 2, 3], Go.zero20, Go.zero20⟩ (by decide) (by decide)⟩


/-- C13: on every finite stream `handshake.Read` returns without panic; it fails exactly when
the stream is empty, or its first byte `n` is 0 (then only that byte has been consumed), or
fewer than `48 + n` bytes follow the first byte; otherwise it succeeds, leaves the stream
after `49 + n` bytes, and returns as `Pstr` the `n` bytes after the length byte, as
`InfoHash` the 20 bytes after the 8 reserved ones and as `PeerID` the last 20 bytes, whatever
the reserved bytes are. -/
theorem handshake_read_outcome (r : List Go.Byte) :
    (∃ res, Read r = some res ∧ (res.err ≠ none → res.h = none) ∧
      (res.err ≠ none ↔
        (r = [] ∨ ∃ (n : Go.Byte) (rest : List Go.Byte), r = n :: rest ∧
          (n.val = 0 ∨ rest.length < 48 + n.val)))) ∧
    (∀ (n : Go.Byte) (rest : List Go.Byte), r = n :: rest → n.val = 0 →
      Read r = some ⟨none, some .pstrlenZero, rest⟩) ∧
    (∀ (n : Go.Byte) (rest : List Go.Byte), r = n :: rest → n.val ≠ 0 →
      48 + n.val ≤ rest.length →
      ∃ H P : Go.Bytes20, H.val = (rest.drop (n.val + 8)).take 20 ∧
        P.val = (rest.drop (n.val + 28)).take 20 ∧
        Read r = some ⟨some ⟨rest.take n.val, H, P⟩, none, rest.drop (48 + n.val)⟩) := by
  have hzero : ∀ (n : Go.Byte) (rest : List Go.Byte), r = n :: rest → n.val = 0 →
      Read r = some ⟨none, some .pstrlenZero, rest⟩ := by
    intro n rest hr hn
    rw [hr]
    exact Handshake_Read_zero n rest hn
  have hok : ∀ (n : Go.Byte) (rest : List Go.Byte), r = n :: rest → n.val ≠ 0 →
      48 + n.val ≤ rest.length →
      ∃ H P : Go.Bytes20, H.val = (rest.drop (n.val + 8)).take 20 ∧
        P.val = (rest.drop (n.val + 28)).take 20 ∧
        Read r = some ⟨some ⟨rest.take n.val, H, P⟩, none, rest.drop (48 + n.val)⟩ := by
    intro n rest hr hn hlen
    rw [hr]
    refine ⟨_, _, ?_, ?_, Handshake_Read_ok n rest hn hlen⟩
    · apply copyInto20_val
      simp only [List.length_take, List.length_drop]
      omega
    · apply copyInto20_val
      simp only [List.length_take, List.length_drop]
      omega
  refine ⟨?_, hzero, hok⟩
  cases r with
  | nil => exact ⟨_, Handshake_Read_nil, fun _ => rfl, by simp⟩
  | cons n rest =>
    by_cases hn : n.val = 0
    · refine ⟨_, hzero n rest rfl hn, fun _ => rfl, ?_⟩
      constructor
      · intro _
        exact Or.inr ⟨n, rest, rfl, Or.inl hn⟩
      · intro _
        simp
    · by_cases hlen : rest.length < 48 + n.val
      · obtain ⟨e, he⟩ := Handshake_Read_short n rest hn hlen
        refine ⟨_, he, fun _ => rfl, ?_⟩
        constructor
        · intro _
          exact Or.inr ⟨n, rest, rfl, Or.inr hlen⟩
        · intro _
          simp
      · obtain ⟨H, P, -, -, hread⟩ := hok n rest rfl hn (by omega)
        refine ⟨_, hread, fun h => absurd rfl h, ?_⟩
        constructor
        · intro h
          exact absurd rfl h
        · rintro (h | ⟨m, rest2, heq, hcase⟩)
          · exact absurd h (by simp)
          · simp only [List.cons.injEq] at heq
            obtain ⟨rfl, rfl⟩ := heq
            rcases hcase with h0 | hl
            · exact absurd h0 hn
            · exact absurd hl hlen

/-- Witness of C13: a length byte 0 followed by two bytes, and a complete handshake with a
one-byte identity string followed by the byte 9. -/
theorem handshake_read_outcome_witness :
    Read [0, 5, 6] = some ⟨none, some .pstrlenZero, [5, 6]⟩ ∧
    (∃ H P : Go.Bytes20,
      H.val = ((65 :: Go.make 8 ++ List.replicate 20 1 ++ List.replicate 20 2 ++ [9]).drop
        ((1 : Go.Byte).val + 8)).take 20 ∧
      P.val = ((65 :: Go.make 8 ++ List.replicate 20 1 ++ List.replicate 20 2 ++ [9]).drop
        ((1 : Go.Byte).val + 28)).take 20 ∧
      Read (1 :: 65 :: Go.make 8 ++ List.replicate 20 1 ++ List.replicate 20 2 ++ [9])
        = some ⟨some ⟨(65 :: Go.make 8 ++ List.replicate 20 1 ++ List.replicate 20 2 ++ [9]).take
            (1 : Go.Byte).val, H, P⟩, none,
          (65 :: Go.make 8 ++ List.replicate 20 1 ++ List.replicate 20 2 ++ [9]).drop
            (48 + (1 : Go.Byte).val)⟩) :=
  ⟨(handshake_read_outcome [0, 5, 6]).2.1 0 [5, 6] rfl rfl,
    (handshake_read_outcome
      (1 :: 65 :: Go.make 8 ++ List.replicate 20 1 ++ List.replicate 20 2 ++ [9])).2.2 1
      (65 :: Go.make 8 ++ List.replicate 20 1 ++ List.replicate 20 2 ++ [9]) rfl (by decide)
      (by decide)⟩

end handshake

/-! ## The peer session -/

namespace client

theorem completeHandshake_writeError (conn : Conn) (H P : Go.Bytes20) (e : NetError)
    (hw : conn.writeErrs.head?.join = some e) :
    ∃ out, completeHandshake conn H P = some out ∧ out.res = none ∧ out.err = some (.net e) ∧
      out.conn.closed = conn.closed := by
  simp only [completeHandshake, handshake.Handshake_Serialize_eq, Conn.Write, Conn.SetDeadline,
    Option.bind_eq_bind, Option.some_bind, hw]
  exact ⟨_, rfl, rfl, rfl, rfl⟩

theorem completeHandshake_response (conn : Conn) (H P : Go.Bytes20) (n : Go.Byte)
    (pstr reserved more : List Go.Byte) (Hr Pr : Go.Bytes20)
    (hw : conn.writeErrs.head?.join = none)
    (hin : conn.incoming = n :: (pstr ++ reserved ++ Hr.val ++ Pr.val ++ more))
    (hn : n.val ≠ 0) (hp : pstr.length = n.val) (hr : reserved.length = 8) :
    completeHandshake conn H P = some
      ⟨if Hr = H then some ⟨pstr, Hr, Pr⟩ else none,
       if Hr = H then none else some (.infohash Hr H),
       { incoming := more,
         writes := conn.writes ++ [19 :: handshake.protocolString ++ [0, 0, 0, 0, 0, 0, 0, 0]
           ++ H.val ++ P.val],
         writeErrs := conn.writeErrs.tail,
         deadline := none,
         closed := conn.closed }⟩ := by
  have hread := handshake.Handshake_Read_frame n pstr reserved more Hr Pr hn hp hr
  have hser : (handshake.New H P).Serialize
      = some (19 :: handshake.protocolString ++ [0, 0, 0, 0, 0, 0, 0, 0] ++ H.val ++ P.val) := by
    rw [handshake.Handshake_Serialize_eq]
    rfl
  simp only [completeHandshake, hser, Conn.Write, Conn.SetDeadline, hw, hin, hread,
    Option.bind_eq_bind, Option.some_bind]
  by_cases hEq : Hr = H
  · subst hEq
    simp
  · have hv : Hr.val ≠ H.val := fun h => hEq (Subtype.ext h)
    simp [hEq, hv]


theorem message_Read_cases (s : List Go.Byte) :
    (∃ e, message.Read s = some ⟨none, some e, []⟩) ∨
    (∃ (b0 b1 b2 b3 : Go.Byte) (body : List Go.Byte), s = b0 :: b1 :: b2 :: b3 :: body ∧
      message.Read s = some ⟨none, none, body⟩) ∨
    (∃ (b0 b1 b2 b3 id : Go.Byte) (payload rest : List Go.Byte),
      s = b0 :: b1 :: b2 :: b3 :: id :: (payload ++ rest) ∧
      b0.val * 16777216 + b1.val * 65536 + b2.val * 256 + b3.val = payload.length + 1 ∧
      message.Read s = some ⟨some ⟨id, payload⟩, none, rest⟩) := by
  by_cases hlen : s.length < 4
  · exact Or.inl (message.Read_short_header s hlen)
  · obtain ⟨b0, b1, b2, b3, body, rfl⟩ :
        ∃ (b0 b1 b2 b3 : Go.Byte) (body : List Go.Byte), s = b0 :: b1 :: b2 :: b3 :: body := by
      match s, hlen with
      | b0 :: b1 :: b2 :: b3 :: body, _ => exact ⟨b0, b1, b2, b3, body, rfl⟩
      | [], h | [_], h | [_, _], h | [_, _, _], h => exact absurd (by simp) h
    by_cases h0 : b0.val * 16777216 + b1.val * 65536 + b2.val * 256 + b3.val = 0
    · exact Or.inr (Or.inl ⟨b0, b1, b2, b3, body, rfl, message.Read_keepAlive _ _ _ _ _ h0⟩)
    · by_cases hb : body.length < b0.val * 16777216 + b1.val * 65536 + b2.val * 256 + b3.val
      · exact Or.inl (message.Read_short_body b0 b1 b2 b3 body hb)
      · cases body with
        | nil => simp only [List.length_nil] at hb; omega
        | cons id tail =>
          have hle : b0.val * 16777216 + b1.val * 65536 + b2.val * 256 + b3.val
              ≤ tail.length + 1 := by
            simp only [List.length_cons] at hb
            omega
          refine Or.inr (Or.inr ⟨b0, b1, b2, b3, id,
            tail.take (b0.val * 16777216 + b1.val * 65536 + b2.val * 256 + b3.val - 1),
            tail.drop (b0.val * 16777216 + b1.val * 65536 + b2.val * 256 + b3.val - 1),
            by rw [List.take_append_drop], ?_, message.Read_body _ _ _ _ _ _ h0 hle⟩)
          simp only [List.length_take]
          omega

theorem message_Read_frame (b0 b1 b2 b3 id : Go.Byte) (payload rest : List Go.Byte)
    (hL : b0.val * 16777216 + b1.val * 65536 + b2.val * 256 + b3.val = payload.length + 1) :
    message.Read (b0 :: b1 :: b2 :: b3 :: id :: (payload ++ rest))
      = some ⟨some ⟨id, payload⟩, none, rest⟩ := by
  rw [message.Read_body _ _ _ _ _ _ (by omega) (by simp only [List.length_append]; omega), hL]
  simp

theorem recvBitfield_of_read (conn : Conn) (r : message.ReadResult)
    (h : message.Read conn.incoming = some r) :
    recvBitfield conn = some
      (match r.err, r.msg with
        | some e, _ => ⟨[], some (.message e), { conn with incoming := r.rest, deadline := none }⟩
        | none, none => ⟨[], some .bitfieldKeepAlive, { conn with incoming := r.rest, deadline := none }⟩
        | none, some msg =>
          if msg.ID ≠ message.MsgBitfield then
            ⟨[], some (.bitfieldID msg.ID), { conn with incoming := r.rest, deadline := none }⟩
          else
            ⟨msg.Payload, none, { conn with incoming := r.rest, deadline := none }⟩) := by
  simp only [recvBitfield, Conn.SetDeadline, h, Option.bind_eq_bind, Option.some_bind]
  rcases r with ⟨msg, err, rest⟩
  cases err with
  | some e => rfl
  | none =>
    cases msg with
    | none => rfl
    | some m =>
      by_cases hid : m.ID = message.MsgBitfield
      · simp [hid]
      · simp [hid]

theorem recvBitfield_closed (conn : Conn) (out : BitfieldResult)
    (h : recvBitfield conn = some out) : out.conn.closed = conn.closed := by
  rcases message_Read_cases conn.incoming with ⟨e, hr⟩ | ⟨b0, b1, b2, b3, body, -, hr⟩ |
    ⟨b0, b1, b2, b3, id, payload, rest, -, -, hr⟩
  all_goals
    rw [recvBitfield_of_read conn _ hr, Option.some.injEq] at h
    subst h
    try rfl
  by_cases hid : id = message.MsgBitfield
  · simp [hid]
  · simp [hid]


theorem completeHandshake_closed (conn : Conn) (H P : Go.Bytes20) (out : HandshakeResult)
    (h : completeHandshake conn H P = some out) : out.conn.closed = conn.closed := by
  simp only [completeHandshake, handshake.Handshake_Serialize_eq, Conn.Write, Conn.SetDeadline,
    Option.bind_eq_bind, Option.some_bind] at h
  cases hw : conn.writeErrs.head?.join with
  | some e =>
    rw [hw] at h
    simp only [Option.some.injEq] at h
    subst h
    rfl
  | none =>
    rw [hw] at h
    simp only [Option.bind_eq_some] at h
    obtain ⟨r, -, h⟩ := h
    rcases r with ⟨res, err, rest⟩
    cases err with
    | some e =>
      simp only [Option.some.injEq] at h
      subst h
      rfl
    | none =>
      cases res with
      | none => simp at h
      | some hs =>
        by_cases hEq : hs.InfoHash.val = H.val
        · simp only [hEq, ne_eq, not_true_eq_false, if_false, Option.some.injEq] at h
          subst h
          rfl
        · simp only [hEq, ne_eq, not_false_eq_true, if_true, Option.some.injEq] at h
          subst h
          rfl

theorem New_handshakeError (dial : peers.Peer → Except NetError Conn) (peer : peers.Peer)
    (P H : Go.Bytes20) (conn : Conn) (hs : HandshakeResult) (e : Error)
    (hd : dial peer = .ok conn) (h : completeHandshake conn H P = some hs)
    (he : hs.err = some e) :
    New dial peer P H = some ⟨none, some e, some hs.conn.Close⟩ := by
  simp [New, hd, h, he]

theorem New_afterHandshake (dial : peers.Peer → Except NetError Conn) (peer : peers.Peer)
    (P H : Go.Bytes20) (conn : Conn) (hs : HandshakeResult) (rb : BitfieldResult)
    (hd : dial peer = .ok conn) (h : completeHandshake conn H P = some hs)
    (he : hs.err = none) (hb : recvBitfield hs.conn = some rb) :
    New dial peer P H = some
      (match rb.err with
        | some e => ⟨none, some e, some rb.conn⟩
        | none => ⟨some { Conn := rb.conn, Choked := true, Bitfield := rb.bf, peer := peer,
                          infoHash := H, peerID := P }, none, some rb.conn⟩) := by
  simp only [New, hd, h, he, hb, Option.bind_eq_bind, Option.some_bind]
  cases rb.err <;> rfl


/-- C14 (as amended): on a connection that takes the local handshake (the `Write` gives no
error) and holds a well-formed response (identity length `n ≠ 0`, all `49 + n` bytes there),
`completeHandshake` succeeds exactly when the content hash of the response equals the
expected `H` byte for byte, and then returns the parsed response; with a different hash it
fails and `New` returns no session; the peer identity of the response has no part in the
outcome. -/
theorem completeHandshake_checks_hash (conn : Conn) (H P : Go.Bytes20) (n : Go.Byte)
    (pstr reserved more : List Go.Byte) (Hr Pr : Go.Bytes20)
    (hw : conn.writeErrs.head?.join = none)
    (hin : conn.incoming = n :: (pstr ++ reserved ++ Hr.val ++ Pr.val ++ more))
    (hn : n.val ≠ 0) (hp : pstr.length = n.val) (hr : reserved.length = 8) :
    ∃ out, completeHandshake conn H P = some out ∧
      (out.err = none ↔ Hr.val = H.val) ∧
      (Hr = H → out.res = some ⟨pstr, Hr, Pr⟩ ∧ out.err = none) ∧
      (Hr ≠ H → out.res = none ∧ out.err = some (.infohash Hr H) ∧
        ∀ (dial : peers.Peer → Except NetError Conn) (peer : peers.Peer),
          dial peer = .ok conn →
          ∃ r, New dial peer P H = some r ∧ r.client = none ∧
            r.err = some (.infohash Hr H)) ∧
      (∀ Pr2 : Go.Bytes20, ∃ out2,
        completeHandshake
          { conn with incoming := n :: (pstr ++ reserved ++ Hr.val ++ Pr2.val ++ more) } H P
          = some out2 ∧
        out2.err = out.err) := by
  have hmain := completeHandshake_response conn H P n pstr reserved more Hr Pr hw hin hn hp hr
  refine ⟨_, hmain, ?_, ?_, ?_, ?_⟩
  · by_cases hEq : Hr = H
    · simp [hEq]
    · have hv : Hr.val ≠ H.val := fun h => hEq (Subtype.ext h)
      simp [hEq, hv]
  · intro hEq
    simp [hEq]
  · intro hEq
    refine ⟨by simp [hEq], by simp [hEq], fun dial peer hd => ?_⟩
    refine ⟨_, New_handshakeError dial peer P H conn _ (.infohash Hr H) hd hmain (by simp [hEq]),
      rfl, rfl⟩
  · intro Pr2
    refine ⟨_, completeHandshake_response _ H P n pstr reserved more Hr Pr2 hw rfl hn hp hr, ?_⟩
    rfl

/-- Witness of C14: a response with a one-byte identity string and the expected hash. -/
theorem completeHandshake_checks_hash_witness :
    ∃ out, completeHandshake
        ⟨1 :: ([65] ++ Go.make 8 ++ Go.zero20.val ++ Go.zero20.val ++ []), [], [], none, false⟩
        Go.zero20 Go.zero20 = some out ∧
      out.res = some ⟨[65], Go.zero20, Go.zero20⟩ ∧ out.err = none := by
  obtain ⟨out, h, -, hok, -⟩ := completeHandshake_checks_hash
    ⟨1 :: ([65] ++ Go.make 8 ++ Go.zero20.val ++ Go.zero20.val ++ []), [], [], none, false⟩
    Go.zero20 Go.zero20 1 [65] (Go.make 8) [] Go.zero20 Go.zero20 rfl rfl (by decide) rfl rfl
  exact ⟨out, h, hok rfl⟩

theorem recvBitfield_session_facts :
    (∀ conn : Conn, ∃ out, recvBitfield conn = some out ∧
      (out.err = none ↔
        ∃ (b0 b1 b2 b3 : Go.Byte) (payload rest : List Go.Byte),
          conn.incoming = b0 :: b1 :: b2 :: b3 :: 5 :: (payload ++ rest) ∧
          b0.val * 16777216 + b1.val * 65536 + b2.val * 256 + b3.val = payload.length + 1) ∧
      (∀ (b0 b1 b2 b3 : Go.Byte) (payload rest : List Go.Byte),
        conn.incoming = b0 :: b1 :: b2 :: b3 :: 5 :: (payload ++ rest) →
        b0.val * 16777216 + b1.val * 65536 + b2.val * 256 + b3.val = payload.length + 1 →
        out.err = none ∧ out.bf = payload ∧ out.conn.incoming = rest ∧
          out.conn.closed = conn.closed ∧ out.conn.writes = conn.writes)) ∧
    (∀ (dial : peers.Peer → Except NetError Conn) (peer : peers.Peer) (P H : Go.Bytes20)
        (r : NewResult) (c : Client),
      New dial peer P H = some r → r.client = some c →
        r.err = none ∧ c.Choked = true ∧ r.conn = some c.Conn ∧
        ∃ conn0 hs, dial peer = .ok conn0 ∧ completeHandshake conn0 H P = some hs ∧
          hs.err = none ∧ recvBitfield hs.conn = some ⟨c.Bitfield, none, c.Conn⟩ ∧
          c.Conn.closed = conn0.closed) := by
  constructor
  · intro conn
    have hframe : ∀ (b0 b1 b2 b3 : Go.Byte) (payload rest : List Go.Byte),
        conn.incoming = b0 :: b1 :: b2 :: b3 :: 5 :: (payload ++ rest) →
        b0.val * 16777216 + b1.val * 65536 + b2.val * 256 + b3.val = payload.length + 1 →
        recvBitfield conn
          = some ⟨payload, none, { conn with incoming := rest, deadline := none }⟩ := by
      intro b0 b1 b2 b3 payload rest hin hL
      have hr := message_Read_frame b0 b1 b2 b3 5 payload rest hL
      rw [← hin] at hr
      rw [recvBitfield_of_read conn _ hr]
      simp [message.MsgBitfield]
    rcases message_Read_cases conn.incoming with ⟨e, hr⟩ | ⟨b0, b1, b2, b3, body, hin, hr⟩ |
      ⟨b0, b1, b2, b3, id, payload, rest, hin, hL, hr⟩
    · refine ⟨_, recvBitfield_of_read conn _ hr, ?_, ?_⟩
      · constructor
        · intro h
          simp at h
        · rintro ⟨c0, c1, c2, c3, payload, rest, hin, hL⟩
          have h2 := hframe c0 c1 c2 c3 payload rest hin hL
          rw [recvBitfield_of_read conn _ hr] at h2
          simp at h2
      · intro c0 c1 c2 c3 payload rest hin hL
        have h2 := hframe c0 c1 c2 c3 payload rest hin hL
        rw [recvBitfield_of_read conn _ hr] at h2
        simp at h2
    · refine ⟨_, recvBitfield_of_read conn _ hr, ?_, ?_⟩
      · constructor
        · intro h
          simp at h
        · rintro ⟨c0, c1, c2, c3, payload, rest, hin, hL⟩
          have h2 := hframe c0 c1 c2 c3 payload rest hin hL
          rw [recvBitfield_of_read conn _ hr] at h2
          simp at h2
      · intro c0 c1 c2 c3 payload rest hin hL
        have h2 := hframe c0 c1 c2 c3 payload rest hin hL
        rw [recvBitfield_of_read conn _ hr] at h2
        simp at h2
    · by_cases hid : id = 5
      · subst hid
        refine ⟨_, hframe b0 b1 b2 b3 payload rest hin hL, ?_, ?_⟩
        · exact ⟨fun _ => ⟨b0, b1, b2, b3, payload, rest, hin, hL⟩, fun _ => rfl⟩
        · intro c0 c1 c2 c3 payload2 rest2 hin2 hL2
          have h2 := hframe c0 c1 c2 c3 payload2 rest2 hin2 hL2
          rw [hframe b0 b1 b2 b3 payload rest hin hL] at h2
          simp only [Option.some.injEq, BitfieldResult.mk.injEq] at h2
          obtain ⟨hp, -, hc⟩ := h2
          have hrest : rest = rest2 := congrArg Conn.incoming hc
          exact ⟨rfl, hp, hrest, rfl, rfl⟩
      · have hne : (⟨id, payload⟩ : message.Message).ID ≠ message.MsgBitfield := hid
        refine ⟨_, recvBitfield_of_read conn _ hr, ?_, ?_⟩
        · constructor
          · intro h
            simp [hne] at h
          · rintro ⟨c0, c1, c2, c3, payload2, rest2, hin2, hL2⟩
            rw [hin] at hin2
            simp only [List.cons.injEq] at hin2
            exact absurd hin2.2.2.2.2.1 hid
        · intro c0 c1 c2 c3 payload2 rest2 hin2 hL2
          rw [hin] at hin2
          simp only [List.cons.injEq] at hin2
          exact absurd hin2.2.2.2.2.1 hid
  · intro dial peer P H r c hnew hc
    cases hd : dial peer with
    | error e =>
      simp only [New, hd, Option.some.injEq] at hnew
      subst hnew
      simp at hc
    | ok conn0 =>
      cases hhs : completeHandshake conn0 H P with
      | none => simp [New, hd, hhs] at hnew
      | some hs =>
        cases he : hs.err with
        | some e =>
          rw [New_handshakeError dial peer P H conn0 hs e hd hhs he, Option.some.injEq] at hnew
          subst hnew
          simp at hc
        | none =>
          cases hrb : recvBitfield hs.conn with
          | none => simp [New, hd, hhs, he, hrb] at hnew
          | some rb =>
            rw [New_afterHandshake dial peer P H conn0 hs rb hd hhs he hrb,
              Option.some.injEq] at hnew
            cases hbe : rb.err with
            | some e =>
              rw [hbe] at hnew
              subst hnew
              simp at hc
            | none =>
              rw [hbe] at hnew
              subst hnew
              simp only [Option.some.injEq] at hc
              subst hc
              refine ⟨rfl, rfl, rfl, conn0, hs, rfl, hhs, he, ?_, ?_⟩
              · rcases rb with ⟨bf, err, conn⟩
                simp only at hbe
                subst hbe
                exact hrb
              · exact (recvBitfield_closed _ _ hrb).trans (completeHandshake_closed _ _ _ _ hhs)


/-- C14 as stated fails: the response is well formed and its content hash is the expected
one, but the `Write` of the local handshake returns an error; `completeHandshake` returns
that error and no handshake, before it reads anything. -/
theorem completeHandshake_fails_on_write_error :
    handshake.Read (1 :: ([65] ++ Go.make 8 ++ Go.zero20.val ++ Go.zero20.val))
      = some ⟨some ⟨[65], Go.zero20, Go.zero20⟩, none, []⟩ ∧
    completeHandshake
        ⟨1 :: ([65] ++ Go.make 8 ++ Go.zero20.val ++ Go.zero20.val), [], [some ⟨1⟩], none, false⟩
        Go.zero20 Go.zero20
      = some ⟨none, some (.net ⟨1⟩),
          ⟨1 :: ([65] ++ Go.make 8 ++ Go.zero20.val ++ Go.zero20.val),
            [19 :: handshake.protocolString ++ Go.make 8 ++ Go.zero20.val ++ Go.zero20.val],
            [], none, false⟩⟩ := by
  constructor
  · decide
  · decide

theorem Handshake_Read_cases (r : List Go.Byte) :
    (∃ e rest, handshake.Read r = some ⟨none, some e, rest⟩) ∨
    (∃ h rest, handshake.Read r = some ⟨some h, none, rest⟩) := by
  cases r with
  | nil => exact Or.inl ⟨_, _, handshake.Handshake_Read_nil⟩
  | cons n rest =>
    by_cases hn : n.val = 0
    · exact Or.inl ⟨_, _, handshake.Handshake_Read_zero n rest hn⟩
    · by_cases hlen : rest.length < 48 + n.val
      · obtain ⟨e, he⟩ := handshake.Handshake_Read_short n rest hn hlen
        exact Or.inl ⟨_, _, he⟩
      · exact Or.inr ⟨_, _, handshake.Handshake_Read_ok n rest hn (by omega)⟩

theorem completeHandshake_total (conn : Conn) (H P : Go.Bytes20) :
    ∃ out, completeHandshake conn H P = some out := by
  cases hw : conn.writeErrs.head?.join with
  | some e =>
    obtain ⟨out, h, -⟩ := completeHandshake_writeError conn H P e hw
    exact ⟨out, h⟩
  | none =>
    simp only [completeHandshake, handshake.Handshake_Serialize_eq, Conn.Write, Conn.SetDeadline,
      Option.bind_eq_bind, Option.some_bind, hw]
    rcases Handshake_Read_cases conn.incoming with ⟨e, rest, hr⟩ | ⟨h, rest, hr⟩
    · rw [hr]
      exact ⟨_, rfl⟩
    · rw [hr]
      simp only [Option.some_bind]
      by_cases hEq : h.InfoHash.val = H.val
      · simp only [hEq, ne_eq, not_true_eq_false, if_false]
        exact ⟨_, rfl⟩
      · simp only [hEq, ne_eq, not_false_eq_true, if_true]
        exact ⟨_, rfl⟩

theorem recvBitfield_total (conn : Conn) : ∃ out, recvBitfield conn = some out := by
  rcases message_Read_cases conn.incoming with ⟨e, hr⟩ | ⟨b0, b1, b2, b3, body, -, hr⟩ |
    ⟨b0, b1, b2, b3, id, payload, rest, -, -, hr⟩
  · exact ⟨_, recvBitfield_of_read conn _ hr⟩
  · exact ⟨_, recvBitfield_of_read conn _ hr⟩
  · exact ⟨_, recvBitfield_of_read conn _ hr⟩

theorem New_dialError (dial : peers.Peer → Except NetError Conn) (peer : peers.Peer)
    (P H : Go.Bytes20) (e : NetError) (hd : dial peer = .error e) :
    New dial peer P H = some ⟨none, some (.net e), none⟩ := by
  simp [New, hd]

theorem New_outcome (dial : peers.Peer → Except NetError Conn) (peer : peers.Peer)
    (P H : Go.Bytes20) :
    ∃ r, New dial peer P H = some r ∧
      (r.err = none ↔ ∃ c, r.client = some c) ∧
      (r.err = none ↔ ∃ conn0 hs rb, dial peer = .ok conn0 ∧
        completeHandshake conn0 H P = some hs ∧ hs.err = none ∧
        recvBitfield hs.conn = some rb ∧ rb.err = none) := by
  cases hd : dial peer with
  | error e =>
    refine ⟨_, New_dialError dial peer P H e hd, by simp, ?_⟩
    constructor
    · intro h
      simp at h
    · rintro ⟨conn0, -, -, h, -⟩
      simp at h
  | ok conn0 =>
    obtain ⟨hs, hhs⟩ := completeHandshake_total conn0 H P
    cases he : hs.err with
    | some e =>
      refine ⟨_, New_handshakeError dial peer P H conn0 hs e hd hhs he, by simp, ?_⟩
      constructor
      · intro h
        simp at h
      · rintro ⟨c1, hs1, -, h1, h2, h3, -⟩
        simp only [Except.ok.injEq] at h1
        subst h1
        rw [hhs, Option.some.injEq] at h2
        subst h2
        rw [he] at h3
        simp at h3
    | none =>
      obtain ⟨rb, hrb⟩ := recvBitfield_total hs.conn
      refine ⟨_, New_afterHandshake dial peer P H conn0 hs rb hd hhs he hrb, ?_, ?_⟩
      · cases hbe : rb.err <;> simp
      · cases hbe : rb.err with
        | some e =>
          constructor
          · intro h
            simp at h
          · rintro ⟨c1, hs1, rb1, h1, h2, -, h4, h5⟩
            simp only [Except.ok.injEq] at h1
            subst h1
            rw [hhs, Option.some.injEq] at h2
            subst h2
            rw [hrb, Option.some.injEq] at h4
            subst h4
            rw [hbe] at h5
            simp at h5
        | none =>
          exact ⟨fun _ => ⟨conn0, hs, rb, rfl, hhs, he, hrb, hbe⟩, fun _ => rfl⟩

theorem New_session (dial : peers.Peer → Except NetError Conn) (peer : peers.Peer)
    (P H Pr : Go.Bytes20) (conn0 : Conn) (n b0 b1 b2 b3 : Go.Byte)
    (pstr reserved payload rest : List Go.Byte)
    (hd : dial peer = .ok conn0)
    (hw : conn0.writeErrs.head?.join = none)
    (hin : conn0.incoming = n :: (pstr ++ reserved ++ H.val ++ Pr.val
      ++ (b0 :: b1 :: b2 :: b3 :: 5 :: (payload ++ rest))))
    (hn : n.val ≠ 0) (hp : pstr.length = n.val) (hr : reserved.length = 8)
    (hL : b0.val * 16777216 + b1.val * 65536 + b2.val * 256 + b3.val = payload.length + 1) :
    ∃ c, New dial peer P H = some ⟨some c, none, some c.Conn⟩ ∧
      c.Choked = true ∧ c.Bitfield = payload ∧ c.Conn.incoming = rest ∧
      c.Conn.closed = conn0.closed ∧ c.peer = peer ∧ c.infoHash = H ∧ c.peerID = P := by
  have hhs := completeHandshake_response conn0 H P n pstr reserved
    (b0 :: b1 :: b2 :: b3 :: 5 :: (payload ++ rest)) H Pr hw hin hn hp hr
  simp only [if_true] at hhs
  have hread := message_Read_frame b0 b1 b2 b3 5 payload rest hL
  have hrb := recvBitfield_of_read
    { incoming := b0 :: b1 :: b2 :: b3 :: 5 :: (payload ++ rest),
      writes := conn0.writes ++ [19 :: handshake.protocolString ++ [0, 0, 0, 0, 0, 0, 0, 0]
        ++ H.val ++ P.val],
      writeErrs := conn0.writeErrs.tail, deadline := none, closed := conn0.closed } _ hread
  have hnew := New_afterHandshake dial peer P H conn0 _ _ hd hhs rfl hrb
  refine ⟨_, hnew, rfl, rfl, rfl, rfl, rfl, rfl, rfl⟩

/-- C16: `recvBitfield` returns without panic, and succeeds exactly when the stream starts
with a complete frame that is not a keep-alive and has kind 5; it then returns the payload
of that frame and leaves the stream right after it.  `New` returns without panic; its error
is nil exactly when it returns a session, and exactly when the dial, the handshake and
`recvBitfield` all succeed; the session then is choked, its bitfield is what `recvBitfield`
returned, and `New` has not closed the connection.  In terms of bytes: when the peer is
reached, takes the local handshake and sends a well-formed handshake with the expected hash
followed by a complete frame of kind 5, `New` returns a session whose bitfield is the
payload of that frame, with the connection open and the stream right after the frame. -/
theorem recvBitfield_outcome :
    (∀ conn : Conn, ∃ out, recvBitfield conn = some out ∧
      (out.err = none ↔
        ∃ (b0 b1 b2 b3 : Go.Byte) (payload rest : List Go.Byte),
          conn.incoming = b0 :: b1 :: b2 :: b3 :: 5 :: (payload ++ rest) ∧
          b0.val * 16777216 + b1.val * 65536 + b2.val * 256 + b3.val = payload.length + 1) ∧
      (∀ (b0 b1 b2 b3 : Go.Byte) (payload rest : List Go.Byte),
        conn.incoming = b0 :: b1 :: b2 :: b3 :: 5 :: (payload ++ rest) →
        b0.val * 16777216 + b1.val * 65536 + b2.val * 256 + b3.val = payload.length + 1 →
        out.err = none ∧ out.bf = payload ∧ out.conn.incoming = rest ∧
          out.conn.closed = conn.closed ∧ out.conn.writes = conn.writes)) ∧
    (∀ (dial : peers.Peer → Except NetError Conn) (peer : peers.Peer) (P H : Go.Bytes20)
        (r : NewResult) (c : Client),
      New dial peer P H = some r → r.client = some c →
        r.err = none ∧ c.Choked = true ∧ r.conn = some c.Conn ∧
        ∃ conn0 hs, dial peer = .ok conn0 ∧ completeHandshake conn0 H P = some hs ∧
          hs.err = none ∧ recvBitfield hs.conn = some ⟨c.Bitfield, none, c.Conn⟩ ∧
          c.Conn.closed = conn0.closed) ∧
    (∀ (dial : peers.Peer → Except NetError Conn) (peer : peers.Peer) (P H : Go.Bytes20),
      ∃ r, New dial peer P H = some r ∧
        (r.err = none ↔ ∃ c, r.client = some c) ∧
        (r.err = none ↔ ∃ conn0 hs rb, dial peer = .ok conn0 ∧
          completeHandshake conn0 H P = some hs ∧ hs.err = none ∧
          recvBitfield hs.conn = some rb ∧ rb.err = none)) ∧
    (∀ (dial : peers.Peer → Except NetError Conn) (peer : peers.Peer) (P H Pr : Go.Bytes20)
        (conn0 : Conn) (n b0 b1 b2 b3 : Go.Byte) (pstr reserved payload rest : List Go.Byte),
      dial peer = .ok conn0 →
      conn0.writeErrs.head?.join = none →
      conn0.incoming = n :: (pstr ++ reserved ++ H.val ++ Pr.val
        ++ (b0 :: b1 :: b2 :: b3 :: 5 :: (payload ++ rest))) →
      n.val ≠ 0 → pstr.length = n.val → reserved.length = 8 →
      b0.val * 16777216 + b1.val * 65536 + b2.val * 256 + b3.val = payload.length + 1 →
      ∃ c, New dial peer P H = some ⟨some c, none, some c.Conn⟩ ∧
        c.Choked = true ∧ c.Bitfield = payload ∧ c.Conn.incoming = rest ∧
        c.Conn.closed = conn0.closed ∧ c.peer = peer ∧ c.infoHash = H ∧ c.peerID = P) :=
  ⟨recvBitfield_session_facts.1, recvBitfield_session_facts.2, New_outcome,
    fun dial peer P H Pr conn0 n b0 b1 b2 b3 pstr reserved payload rest hd hw hin hn hp hr hL =>
      New_session dial peer P H Pr conn0 n b0 b1 b2 b3 pstr reserved payload rest hd hw hin hn
        hp hr hL⟩

/-- Witness of C16: a bitfield frame with payload `[0xF0, 0x0F]` followed by the byte 9, read
by `recvBitfield`; and the same frame after a valid handshake response, on which `New`
returns a choked session with that bitfield and the connection open. -/
theorem recvBitfield_outcome_witness :
    (∃ out, recvBitfield ⟨[0, 0, 0, 3, 5, 0xF0, 0x0F, 9], [], [], none, false⟩ = some out ∧
      out.err = none ∧ out.bf = [0xF0, 0x0F] ∧ out.conn.incoming = [9]) ∧
    (∃ c, New (fun _ => .ok ⟨1 :: ([65] ++ Go.make 8 ++ Go.zero20.val ++ Go.zero20.val
          ++ (0 :: 0 :: 0 :: 3 :: 5 :: ([0xF0, 0x0F] ++ [9]))), [], [], none, false⟩)
        ⟨"peer"⟩ Go.zero20 Go.zero20 = some ⟨some c, none, some c.Conn⟩ ∧
      c.Choked = true ∧ c.Bitfield = [0xF0, 0x0F] ∧ c.Conn.incoming = [9] ∧
      c.Conn.closed = false) := by
  constructor
  · obtain ⟨out, h, -, hf⟩ :=
      recvBitfield_outcome.1 ⟨[0, 0, 0, 3, 5, 0xF0, 0x0F, 9], [], [], none, false⟩
    have h2 := hf 0 0 0 3 [0xF0, 0x0F] [9] rfl (by decide)
    exact ⟨out, h, h2.1, h2.2.1, h2.2.2.1⟩
  · obtain ⟨c, h, h1, h2, h3, h4, -⟩ := recvBitfield_outcome.2.2.2
      (fun _ => .ok ⟨1 :: ([65] ++ Go.make 8 ++ Go.zero20.val ++ Go.zero20.val
          ++ (0 :: 0 :: 0 :: 3 :: 5 :: ([0xF0, 0x0F] ++ [9]))), [], [], none, false⟩)
      ⟨"peer"⟩ Go.zero20 Go.zero20 Go.zero20 _ 1 0 0 0 3 [65] (Go.make 8) [0xF0, 0x0F] [9]
      rfl rfl rfl (by decide) rfl rfl (by decide)
    exact ⟨c, h, h1, h2, h3, h4⟩

/-- C15, the code at the failing inputs: a peer answers with a valid handshake and then
sends a choke frame, a keep-alive, or a truncated bitfield frame.  `New` returns no session
and an error, but the connection it leaves is not closed; after a handshake with a wrong
content hash, the sibling failure path, it is closed. -/
theorem New_bitfield_failure_leaves_open :
    (∃ conn, New (fun _ => .ok ⟨19 :: handshake.protocolString ++ Go.make 8 ++ Go.zero20.val
          ++ Go.zero20.val ++ [0, 0, 0, 1, 0], [], [], none, false⟩) ⟨"peer"⟩ Go.zero20 Go.zero20
        = some ⟨none, some (.bitfieldID message.MsgChoke), some conn⟩ ∧ conn.closed = false) ∧
    (∃ conn, New (fun _ => .ok ⟨19 :: handshake.protocolString ++ Go.make 8 ++ Go.zero20.val
          ++ Go.zero20.val ++ [0, 0, 0, 0], [], [], none, false⟩) ⟨"peer"⟩ Go.zero20 Go.zero20
        = some ⟨none, some .bitfieldKeepAlive, some conn⟩ ∧ conn.closed = false) ∧
    (∃ conn, New (fun _ => .ok ⟨19 :: handshake.protocolString ++ Go.make 8 ++ Go.zero20.val
          ++ Go.zero20.val ++ [0, 0, 0, 5, 5, 1], [], [], none, false⟩) ⟨"peer"⟩ Go.zero20 Go.zero20
        = some ⟨none, some (.message .ErrUnexpectedEOF), some conn⟩ ∧ conn.closed = false) ∧
    (∃ conn e, New (fun _ => .ok ⟨19 :: handshake.protocolString ++ Go.make 8
          ++ List.replicate 20 1 ++ Go.zero20.val ++ [0, 0, 0, 1, 5], [], [], none, false⟩)
          ⟨"peer"⟩ Go.zero20 Go.zero20
        = some ⟨none, some e, some conn⟩ ∧ conn.closed = true) := by
  refine ⟨⟨⟨[], [19 :: handshake.protocolString ++ Go.make 8 ++ Go.zero20.val ++ Go.zero20.val],
      [], none, false⟩, by decide, rfl⟩,
    ⟨⟨[], [19 :: handshake.protocolString ++ Go.make 8 ++ Go.zero20.val ++ Go.zero20.val],
      [], none, false⟩, by decide, rfl⟩,
    ⟨⟨[], [19 :: handshake.protocolString ++ Go.make 8 ++ Go.zero20.val ++ Go.zero20.val],
      [], none, false⟩, by decide, rfl⟩,
    ⟨⟨[0, 0, 0, 1, 5], [19 :: handshake.protocolString ++ Go.make 8 ++ Go.zero20.val ++ Go.zero20.val],
      [], none, true⟩, .infohash ⟨List.replicate 20 1, rfl⟩ Go.zero20, by decide, rfl⟩⟩

end client

/-! ## Builders of have and request messages: auxiliary facts -/

namespace message

theorem FormatHave_eq (index : Int) :
    FormatHave index = some ⟨MsgHave, Go.bigEndian32 (Go.toUint32 index)⟩ := by
  simp [FormatHave, Go.PutUint32, Go.make, Go.overwrite, Go.bigEndian32]

theorem FormatRequest_eq (index start length : Int) :
    FormatRequest index start length = some ⟨MsgRequest,
      Go.bigEndian32 (Go.toUint32 index) ++ Go.bigEndian32 (Go.toUint32 start)
        ++ Go.bigEndian32 (Go.toUint32 length)⟩ := by
  simp [FormatRequest, Go.PutUint32, Go.make, Go.overwrite, Go.bigEndian32]

theorem toUint32_eq_self (v : Int) (h0 : 0 ≤ v) (h1 : v < 4294967296) :
    ((Go.toUint32 v : Nat) : Int) = v := by
  unfold Go.toUint32
  omega

theorem toUint32_ne_self (v : Int) (h : ¬ (0 ≤ v ∧ v < 4294967296)) :
    ((Go.toUint32 v : Nat) : Int) ≠ v := by
  unfold Go.toUint32
  omega

theorem bigEndian32_length (v : Nat) : (Go.bigEndian32 v).length = 4 := rfl

end message

/-! ## The peer session: send operations -/

namespace client

/-- C17: each send operation returns without panic, hands to `Write` exactly the
serialization of its message, returns the error of that `Write` unchanged, and leaves the
choke state and the bitfield of the session as they were: `SendInterested` writes
`[0,0,0,1,2]`, `SendUnchoke` writes `[0,0,0,1,1]`, `SendHave(index)` writes `[0,0,0,5,4]`
and the 4-byte big-endian index, `SendRequest(index, begin, length)` writes `[0,0,0,13,6]`
and the three 4-byte big-endian values (each value taken modulo `2^32`). -/
theorem send_operations (c : Client) :
    (∃ out, c.SendInterested = some out ∧
      out.ret = (c.Conn.Write [0, 0, 0, 1, 2]).1 ∧
      out.client.Conn = (c.Conn.Write [0, 0, 0, 1, 2]).2 ∧
      out.client.Choked = c.Choked ∧ out.client.Bitfield = c.Bitfield) ∧
    (∃ out, c.SendUnchoke = some out ∧
      out.ret = (c.Conn.Write [0, 0, 0, 1, 1]).1 ∧
      out.client.Conn = (c.Conn.Write [0, 0, 0, 1, 1]).2 ∧
      out.client.Choked = c.Choked ∧ out.client.Bitfield = c.Bitfield) ∧
    (∀ index : Int, ∃ (out : CallResult (Option NetError)) (e : List Go.Byte),
      e.length = 4 ∧ Go.Uint32 e = some (index % 4294967296).toNat ∧
      c.SendHave index = some out ∧
      out.ret = (c.Conn.Write ([0, 0, 0, 5, 4] ++ e)).1 ∧
      out.client.Conn = (c.Conn.Write ([0, 0, 0, 5, 4] ++ e)).2 ∧
      out.client.Choked = c.Choked ∧ out.client.Bitfield = c.Bitfield) ∧
    (∀ index start length : Int,
      ∃ (out : CallResult (Option NetError)) (e1 e2 e3 : List Go.Byte),
      e1.length = 4 ∧ Go.Uint32 e1 = some (index % 4294967296).toNat ∧
      e2.length = 4 ∧ Go.Uint32 e2 = some (start % 4294967296).toNat ∧
      e3.length = 4 ∧ Go.Uint32 e3 = some (length % 4294967296).toNat ∧
      c.SendRequest index start length = some out ∧
      out.ret = (c.Conn.Write ([0, 0, 0, 13, 6] ++ e1 ++ e2 ++ e3)).1 ∧
      out.client.Conn = (c.Conn.Write ([0, 0, 0, 13, 6] ++ e1 ++ e2 ++ e3)).2 ∧
      out.client.Choked = c.Choked ∧ out.client.Bitfield = c.Bitfield) ∧
    (∀ b : List Go.Byte, (c.Conn.Write b).1 = c.Conn.writeErrs.head?.join ∧
      (c.Conn.Write b).2.writes = c.Conn.writes ++ [b] ∧
      (c.Conn.Write b).2.incoming = c.Conn.incoming ∧
      (c.Conn.Write b).2.closed = c.Conn.closed) := by
  have hU : ∀ v : Int, Go.Uint32 (Go.bigEndian32 (Go.toUint32 v))
      = some (v % 4294967296).toNat := by
    intro v
    have := message.Uint32_bigEndian32 (Go.toUint32 v) (message.toUint32_lt v) []
    rw [List.append_nil] at this
    exact this
  have hhave : ∀ p : List Go.Byte, p.length = 4 →
      message.Message.Serialize (some ⟨message.MsgHave, p⟩) = some ([0, 0, 0, 5, 4] ++ p) := by
    intro p hp
    have h5 : Go.bigEndian32 5 = [0, 0, 0, 5] := by decide
    rw [message.Serialize_eq _ (by show p.length + 5 < 4294967296; omega)]
    show some (Go.bigEndian32 (p.length + 1) ++ message.MsgHave :: p) = _
    rw [hp, h5]
    rfl
  have hreq : ∀ p : List Go.Byte, p.length = 12 →
      message.Message.Serialize (some ⟨message.MsgRequest, p⟩) = some ([0, 0, 0, 13, 6] ++ p) := by
    intro p hp
    have h13 : Go.bigEndian32 13 = [0, 0, 0, 13] := by decide
    rw [message.Serialize_eq _ (by show p.length + 5 < 4294967296; omega)]
    show some (Go.bigEndian32 (p.length + 1) ++ message.MsgRequest :: p) = _
    rw [hp, h13]
    rfl
  refine ⟨?_, ?_, ?_, ?_, fun b => ⟨rfl, rfl, rfl, rfl⟩⟩
  · have hs : message.Message.Serialize (some ⟨message.MsgInterested, []⟩)
        = some [0, 0, 0, 1, 2] := by decide
    refine ⟨⟨(c.Conn.Write [0, 0, 0, 1, 2]).1, { c with Conn := (c.Conn.Write [0, 0, 0, 1, 2]).2 }⟩,
      ?_, rfl, rfl, rfl, rfl⟩
    simp only [Client.SendInterested, hs, Option.bind_eq_bind, Option.some_bind]
  · have hs : message.Message.Serialize (some ⟨message.MsgUnchoke, []⟩)
        = some [0, 0, 0, 1, 1] := by decide
    refine ⟨⟨(c.Conn.Write [0, 0, 0, 1, 1]).1, { c with Conn := (c.Conn.Write [0, 0, 0, 1, 1]).2 }⟩,
      ?_, rfl, rfl, rfl, rfl⟩
    simp only [Client.SendUnchoke, hs, Option.bind_eq_bind, Option.some_bind]
  · intro index
    have hs := hhave (Go.bigEndian32 (Go.toUint32 index)) rfl
    refine ⟨⟨(c.Conn.Write ([0, 0, 0, 5, 4] ++ Go.bigEndian32 (Go.toUint32 index))).1,
        { c with Conn := (c.Conn.Write ([0, 0, 0, 5, 4] ++ Go.bigEndian32 (Go.toUint32 index))).2 }⟩,
      Go.bigEndian32 (Go.toUint32 index), rfl, hU index, ?_, rfl, rfl, rfl, rfl⟩
    simp only [Client.SendHave, message.FormatHave_eq, hs, Option.bind_eq_bind, Option.some_bind]
  · intro index start length
    have hs := hreq (Go.bigEndian32 (Go.toUint32 index) ++ Go.bigEndian32 (Go.toUint32 start)
      ++ Go.bigEndian32 (Go.toUint32 length)) rfl
    refine ⟨⟨(c.Conn.Write ([0, 0, 0, 13, 6] ++ Go.bigEndian32 (Go.toUint32 index)
          ++ Go.bigEndian32 (Go.toUint32 start) ++ Go.bigEndian32 (Go.toUint32 length))).1,
        { c with Conn := (c.Conn.Write ([0, 0, 0, 13, 6] ++ Go.bigEndian32 (Go.toUint32 index)
          ++ Go.bigEndian32 (Go.toUint32 start) ++ Go.bigEndian32 (Go.toUint32 length))).2 }⟩,
      Go.bigEndian32 (Go.toUint32 index), Go.bigEndian32 (Go.toUint32 start),
      Go.bigEndian32 (Go.toUint32 length), rfl, hU index, rfl, hU start, rfl, hU length, ?_,
      rfl, rfl, rfl, rfl⟩
    simp only [Client.SendRequest, message.FormatRequest_eq, hs, Option.bind_eq_bind,
      Option.some_bind]
    rfl

end client

/-! ## Builders of have and request messages, and the length limit of a frame -/

namespace message

/-- C18: for all integers `index`, `begin` and `length`, `FormatRequest` returns without
panic a message of kind 6 whose payload is exactly 12 bytes: three groups of 4 bytes whose
big-endian values are `index`, `begin` and `length` modulo `2^32`, in that order; a value in
`[0, 2^32)` is encoded exactly. -/
theorem formatRequest_encoding (index start length : Int) :
    ∃ i0 i1 i2 i3 s0 s1 s2 s3 l0 l1 l2 l3 : Go.Byte,
      FormatRequest index start length
        = some ⟨6, [i0, i1, i2, i3, s0, s1, s2, s3, l0, l1, l2, l3]⟩ ∧
      ((i0.val * 16777216 + i1.val * 65536 + i2.val * 256 + i3.val : Nat) : Int)
        = index % 4294967296 ∧
      ((s0.val * 16777216 + s1.val * 65536 + s2.val * 256 + s3.val : Nat) : Int)
        = start % 4294967296 ∧
      ((l0.val * 16777216 + l1.val * 65536 + l2.val * 256 + l3.val : Nat) : Int)
        = length % 4294967296 ∧
      (0 ≤ index → index < 4294967296 →
        ((i0.val * 16777216 + i1.val * 65536 + i2.val * 256 + i3.val : Nat) : Int) = index) ∧
      (0 ≤ start → start < 4294967296 →
        ((s0.val * 16777216 + s1.val * 65536 + s2.val * 256 + s3.val : Nat) : Int) = start) ∧
      (0 ≤ length → length < 4294967296 →
        ((l0.val * 16777216 + l1.val * 65536 + l2.val * 256 + l3.val : Nat) : Int) = length) := by
  have hv : ∀ v : Int,
      (((Go.toByte (Go.toUint32 v / 16777216)).val * 16777216
        + (Go.toByte (Go.toUint32 v / 65536)).val * 65536
        + (Go.toByte (Go.toUint32 v / 256)).val * 256 + (Go.toByte (Go.toUint32 v)).val : Nat) : Int)
        = v % 4294967296 := by
    intro v
    rw [bigEndian32_value _ (toUint32_lt v)]
    unfold Go.toUint32
    omega
  refine ⟨_, _, _, _, _, _, _, _, _, _, _, _, FormatRequest_eq index start length,
    hv index, hv start, hv length, ?_, ?_, ?_⟩
  · intro h0 h1
    rw [hv index]
    omega
  · intro h0 h1
    rw [hv start]
    omega
  · intro h0 h1
    rw [hv length]
    omega

/-- Witness of C18: the request for 16384 bytes at offset 32768 of piece 3. -/
theorem formatRequest_encoding_witness :
    ∃ i0 i1 i2 i3 s0 s1 s2 s3 l0 l1 l2 l3 : Go.Byte,
      FormatRequest 3 32768 16384
        = some ⟨6, [i0, i1, i2, i3, s0, s1, s2, s3, l0, l1, l2, l3]⟩ ∧
      ((i0.val * 16777216 + i1.val * 65536 + i2.val * 256 + i3.val : Nat) : Int) = 3 ∧
      ((s0.val * 16777216 + s1.val * 65536 + s2.val * 256 + s3.val : Nat) : Int) = 32768 ∧
      ((l0.val * 16777216 + l1.val * 65536 + l2.val * 256 + l3.val : Nat) : Int) = 16384 := by
  obtain ⟨i0, i1, i2, i3, s0, s1, s2, s3, l0, l1, l2, l3, h, -, -, -, hi, hs, hl⟩ :=
    formatRequest_encoding 3 32768 16384
  exact ⟨i0, i1, i2, i3, s0, s1, s2, s3, l0, l1, l2, l3, h, hi (by decide) (by decide),
    hs (by decide) (by decide), hl (by decide) (by decide)⟩

/-- C20: for every integer `i`, `FormatHave(i)` returns a message without panic and
`ParseHave` of it succeeds with `i` modulo `2^32`: that is `i` itself when
`0 ≤ i < 2^32`, and a value different from `i` otherwise. -/
theorem parseHave_formatHave (i : Int) :
    ∃ m, FormatHave i = some m ∧
      ParseHave m = some ((i % 4294967296).toNat, none) ∧
      (((i % 4294967296).toNat : Nat) : Int) = i % 4294967296 ∧
      (0 ≤ i → i < 4294967296 → (((i % 4294967296).toNat : Nat) : Int) = i) ∧
      (¬ (0 ≤ i ∧ i < 4294967296) → (((i % 4294967296).toNat : Nat) : Int) ≠ i) := by
  refine ⟨_, FormatHave_eq i, ?_, by omega, fun h0 h1 => by omega, fun h => by omega⟩
  have hU := Uint32_bigEndian32 (Go.toUint32 i) (toUint32_lt i) []
  rw [List.append_nil] at hU
  have hlen : ¬ (Go.bigEndian32 (Go.toUint32 i)).length ≠ 4 := fun h => h rfl
  simp only [ParseHave, ne_eq, not_true_eq_false, if_false, hU, Option.bind_eq_bind,
    Option.some_bind]
  rfl

/-- Witness of C20: index 7 comes back as 7, index -1 as `2^32 - 1`. -/
theorem parseHave_formatHave_witness :
    (∃ m, FormatHave 7 = some m ∧ ParseHave m = some (((7 : Int) % 4294967296).toNat, none) ∧
      ((((7 : Int) % 4294967296).toNat : Nat) : Int) = 7) ∧
    (∃ m, FormatHave (-1) = some m ∧
      ParseHave m = some (((-1 : Int) % 4294967296).toNat, none) ∧
      (((((-1 : Int)) % 4294967296).toNat : Nat) : Int) ≠ -1) := by
  constructor
  · obtain ⟨m, h1, h2, -, h3, -⟩ := parseHave_formatHave 7
    exact ⟨m, h1, h2, h3 (by decide) (by decide)⟩
  · obtain ⟨m, h1, h2, -, -, h3⟩ := parseHave_formatHave (-1)
    exact ⟨m, h1, h2, h3 (by decide)⟩

/-- C19, the code at the failing inputs: for a message whose payload has `2^32 - 5` bytes,
or `2^32 - 2` bytes, both shorter than `2^32 - 1`, `Serialize` panics (`4 + length` wraps
in `uint32`, so `buf` is shorter than 4 bytes and `buf[0:4]` is out of range): there is no
frame to concatenate; yet `Read` accepts the frame with the length field
`2^32 - 4 = 0xFFFFFFFC` and a payload of `2^32 - 5` bytes, leaving what follows. -/
theorem serialize_panics_within_length_field :
    (List.replicate 4294967291 (0 : Go.Byte)).length < 4294967295 ∧
    (List.replicate 4294967294 (0 : Go.Byte)).length < 4294967295 ∧
    Message.Serialize (some ⟨MsgPiece, List.replicate 4294967291 0⟩) = none ∧
    Message.Serialize (some ⟨MsgPiece, List.replicate 4294967294 0⟩) = none ∧
    Read (255 :: 255 :: 255 :: 252 :: MsgPiece :: (List.replicate 4294967291 0 ++ [0, 0, 0, 0]))
      = some ⟨some ⟨MsgPiece, List.replicate 4294967291 0⟩, none, [0, 0, 0, 0]⟩ := by
  have l1 : (List.replicate 4294967291 (0 : Go.Byte)).length = 4294967291 :=
    List.length_replicate _ _
  have l2 : (List.replicate 4294967294 (0 : Go.Byte)).length = 4294967294 :=
    List.length_replicate _ _
  refine ⟨by rw [l1]; omega, by rw [l2]; omega, Serialize_panics _ ?_ ?_,
    Serialize_panics _ ?_ ?_, ?_⟩
  · show 4294967291 ≤ (List.replicate 4294967291 (0 : Go.Byte)).length
    rw [l1]
  · show (List.replicate 4294967291 (0 : Go.Byte)).length < 4294967296
    rw [l1]
    omega
  · show 4294967291 ≤ (List.replicate 4294967294 (0 : Go.Byte)).length
    rw [l2]
    omega
  · show (List.replicate 4294967294 (0 : Go.Byte)).length < 4294967296
    rw [l2]
    omega
  · have hL : (255 : Go.Byte).val * 16777216 + (255 : Go.Byte).val * 65536
        + (255 : Go.Byte).val * 256 + (252 : Go.Byte).val
        = (List.replicate 4294967291 (0 : Go.Byte)).length + 1 := by
      rw [l1]
      rfl
    exact client.message_Read_frame 255 255 255 252 MsgPiece _ [0, 0, 0, 0] hL

end message
